import Mathlib

/-!
Verification of the translation-and-ordering pipeline of the capnpc-abstract
schema-compiler backends (`capnpc-abstract-rust` and `capnpc-idiomatic-cpp`).

The Rust sources are shallowly embedded: pure functions become Lean functions,
panics become `Except`/`Option` failures, `HashMap`/`MultiMap` become
association lists, and the unbounded recursion over the flat node graph is
bounded by an explicit fuel parameter (the Rust code recurses without bound and
would diverge on a cyclic scope graph, exactly as a fuel-exhausted run does).

Layout:
* generic list/monad helpers;
* `Name::from` tokenisation (shared verbatim by both backends);
* the parser AST (`parser::ast`);
* the Rust backend AST, translation and reference resolution
  (`capnpc-abstract-rust/src/rust/ast.rs`);
* the C++ backend AST and translator
  (`capnpc-idiomatic-cpp/src/cpp/{ast,translator,codegen}.rs`);
* the dependency orderer (`codegen/header.rs`);
* the claim theorems with witnesses and counterexamples.
-/

set_option linter.unusedSectionVars false
set_option linter.unusedVariables false
set_option maxHeartbeats 1000000

/-! ## Generic helpers -/

section Helpers

variable {α β γ : Type} [DecidableEq α]

/-- Association-list lookup, modelling `HashMap::get` (keys are unique in every
map the source builds, so first-match lookup agrees with the hash map). -/
def alookup : List (α × β) → α → Option β
  | [], _ => none
  | (k, v) :: rest, a => if a = k then some v else alookup rest a

theorem alookup_mem {l : List (α × β)} {a : α} {b : β} (h : alookup l a = some b) :
    (a, b) ∈ l := by
  induction l with
  | nil => simp [alookup] at h
  | cons p rest ih =>
    cases p with
    | mk k v =>
      rw [alookup] at h
      split at h
      · rename_i heq
        cases h
        subst heq
        exact List.mem_cons_self _ _
      · exact List.mem_cons_of_mem _ (ih h)

/-- Effectful map over `Except`, modelling a Rust loop that pushes translated
elements into a vector and may panic. -/
def mapME (f : α → Except String β) : List α → Except String (List β)
  | [] => .ok []
  | a :: l =>
    match f a with
    | .error e => .error e
    | .ok b =>
      match mapME f l with
      | .error e => .error e
      | .ok bs => .ok (b :: bs)

/-- Effectful fold over `Except`, modelling a Rust `for_each` accumulating into
a mutable value where the body may panic. -/
def foldME (f : β → α → Except String β) (b : β) : List α → Except String β
  | [] => .ok b
  | a :: l =>
    match f b a with
    | .error e => .error e
    | .ok b' => foldME f b' l

/-- Effectful map over `Option`, modelling a loop whose body may `unwrap`. -/
def mapMO (f : α → Option β) : List α → Option (List β)
  | [] => some []
  | a :: l =>
    match f a with
    | none => none
    | some b =>
      match mapMO f l with
      | none => none
      | some bs => some (b :: bs)

theorem length_filter_le_of_imp (l : List α) (p q : α → Bool)
    (h : ∀ x, p x = true → q x = true) :
    (l.filter p).length ≤ (l.filter q).length := by
  induction l with
  | nil => simp
  | cons a t ih =>
    by_cases hp : p a = true
    · rw [List.filter_cons_of_pos hp, List.filter_cons_of_pos (h a hp)]
      simpa using ih
    · rw [List.filter_cons_of_neg (by simpa using hp)]
      by_cases hq : q a = true
      · rw [List.filter_cons_of_pos hq]
        exact Nat.le_succ_of_le ih
      · rw [List.filter_cons_of_neg (by simpa using hq)]
        exact ih

theorem length_filter_lt_of_imp (keys : List α) (p q : α → Bool)
    (himp : ∀ x, p x = true → q x = true) (name : α)
    (hmem : name ∈ keys) (hp : p name = false) (hq : q name = true) :
    (keys.filter p).length < (keys.filter q).length := by
  induction keys with
  | nil => simp at hmem
  | cons a t ih =>
    rcases List.mem_cons.mp hmem with rfl | hmem'
    · rw [List.filter_cons_of_neg (by simp [hp]), List.filter_cons_of_pos hq]
      exact Nat.lt_succ_of_le (length_filter_le_of_imp t p q himp)
    · by_cases hpa : p a = true
      · rw [List.filter_cons_of_pos hpa, List.filter_cons_of_pos (himp a hpa)]
        simpa using ih hmem'
      · rw [List.filter_cons_of_neg (by simpa using hpa)]
        by_cases hqa : q a = true
        · rw [List.filter_cons_of_pos hqa]
          exact Nat.lt_succ_of_lt (ih hmem')
        · rw [List.filter_cons_of_neg (by simpa using hqa)]
          exact ih hmem'

theorem length_filter_add_length_filter_not (l : List α) (p : α → Bool) :
    (l.filter p).length + (l.filter (fun a => ! p a)).length = l.length := by
  induction l with
  | nil => rfl
  | cons a t ih =>
    by_cases hp : p a = true
    · rw [List.filter_cons_of_pos hp, List.filter_cons_of_neg (by simp [hp])]
      simp [← ih]
      omega
    · rw [List.filter_cons_of_neg (by simpa using hp),
        List.filter_cons_of_pos (by simp at hp; simp [hp])]
      simp [← ih]
      omega

end Helpers

/-! ## `Name::from` tokenisation

Both backends contain the same `Name::from` (cpp/ast.rs:126-150 and
rust/ast.rs:178-202): sanitise the input (`"/" -> "_"`, `"+" -> "_plus"`),
then split into tokens at every lowercase-to-uppercase character boundary.
The embedding works on the character list of the string.
-/

/-- The sanitising pass: `name.replace("/", "_").replace("+", "_plus")`,
as the two sequential single-pattern replacements of the source. -/
def sanitizeChars (cs : List Char) : List Char :=
  ((cs.map (fun c => if c = '/' then '_' else c)).flatMap
    (fun c => if c = '+' then ['_', 'p', 'l', 'u', 's'] else [c]))

/-- The tokenising loop of `Name::from`: `cur` is `current_name`, `lastLower`
is `last_char_was_lowercase`, `acc` is `names`. -/
def tokenizeGo : List Char → List Char → Bool → List (List Char) → List (List Char)
  | [], cur, _, acc => if cur.isEmpty then acc else acc ++ [cur]
  | c :: rest, cur, lastLower, acc =>
    if lastLower && c.isUpper then
      tokenizeGo rest ([] ++ [c]) c.isLower (acc ++ [cur])
    else
      tokenizeGo rest (cur ++ [c]) c.isLower acc

/-- `Name::from`'s tokenisation of an (already sanitised) character list. -/
def tokenizeChars (cs : List Char) : List (List Char) :=
  tokenizeGo cs [] false []

/-- The boundary relation between consecutive tokens: the left token ends in a
lowercase character and the right token starts with an uppercase character. -/
def tokenBoundary (t1 t2 : List Char) : Prop :=
  ∃ c1 c2, t1.getLast? = some c1 ∧ t2.head? = some c2 ∧ c1.isLower = true ∧ c2.isUpper = true

/-! ## Names (both backends)

`capnpc-abstract-rust`'s `Name` is a token list; `capnpc-idiomatic-cpp`'s
`Name` additionally carries a rendering case.  `Name::from` is the sanitising
tokenisation above (`from` is a Lean keyword, hence `fromString`).
-/

/-- Rust backend `Name` (rust/ast.rs:8-11). -/
structure RName where
  tokens : List String
deriving DecidableEq

def RName.fromString (name : String) : RName :=
  ⟨(tokenizeChars (sanitizeChars name.data)).map (fun cs => String.mk cs)⟩

/-- Rust backend `FullyQualifiedName` (rust/ast.rs:13-17). -/
structure RFqn where
  names : List RName
deriving DecidableEq

/-- `FullyQualifiedName::with` (rust/ast.rs:238-245). -/
def RFqn.with (f : RFqn) (subname : RName) : RFqn :=
  ⟨f.names ++ [subname]⟩

/-- C++ backend `NameCase` (cpp/ast.rs:5-12). -/
inductive NameCase where
  | snakeCase
  | screamingSnakeCase
  | upperCamelCase
  | lowerCamelCase
  | fixed
deriving DecidableEq

/-- C++ backend `Name` (cpp/ast.rs:14-18); the Rust field `case` is renamed
`nameCase` (`case` is a Lean keyword). -/
structure CName where
  tokens : List String
  nameCase : NameCase
deriving DecidableEq

def CName.fromString (name : String) : CName :=
  ⟨(tokenizeChars (sanitizeChars name.data)).map (fun cs => String.mk cs), .fixed⟩

/-- `Name::with_prepended` (cpp/ast.rs:152-158). -/
def CName.withPrepended (n : CName) (tok : String) : CName :=
  ⟨tok :: n.tokens, n.nameCase⟩

/-- `Name::check_reserved` (identical in both backends). -/
def checkReserved (s : String) (reserved : List String) : String :=
  if s ∈ reserved then s ++ "_" else s

/-- Capitalise one token: `x[0..1].to_uppercase() + x[1..].to_lowercase()`
(ASCII model of the Rust Unicode case mapping). -/
def capitalizeToken (s : String) : String :=
  match s.data with
  | [] => ""
  | c :: rest => String.mk (c.toUpper :: rest.map Char.toLower)

def CName.toFixedCase (n : CName) : String :=
  String.join n.tokens

def CName.toSnakeCase (n : CName) (reserved : List String) : String :=
  checkReserved ("_".intercalate (n.tokens.map String.toLower)) reserved

def CName.toScreamingSnakeCase (n : CName) (reserved : List String) : String :=
  checkReserved ("_".intercalate (n.tokens.map String.toUpper)) reserved

def CName.toUpperCamelCase (n : CName) (reserved : List String) : String :=
  checkReserved (String.join (n.tokens.map capitalizeToken)) reserved

def CName.toLowerCamelCase (n : CName) (reserved : List String) : String :=
  match n.tokens with
  | [] => ""
  | head :: tail =>
    checkReserved (head.toLower ++ String.join (tail.map capitalizeToken)) reserved

/-- `impl ToString for Name` (cpp/ast.rs:226-236). -/
def CName.render (n : CName) : String :=
  match n.nameCase with
  | .fixed => n.toFixedCase
  | .lowerCamelCase => n.toLowerCamelCase []
  | .upperCamelCase => n.toUpperCamelCase []
  | .screamingSnakeCase => n.toScreamingSnakeCase []
  | .snakeCase => n.toSnakeCase []

/-- C++ backend `FullyQualifiedName` (cpp/ast.rs:20-24). -/
structure CFqn where
  names : List CName
deriving DecidableEq

def CFqn.empty : CFqn := ⟨[]⟩

def CFqn.withAppended (f : CFqn) (n : CName) : CFqn :=
  ⟨f.names ++ [n]⟩

/-- `impl ToString for FullyQualifiedName` (cpp/ast.rs:304-308). -/
def CFqn.render (f : CFqn) : String :=
  "::".intercalate (f.names.map CName.render)

/-! ## The parser AST (`parser/src/ast.rs`)

Shared by both backends.  `discriminant_value` lives on `Field`
(`NO_DISCRIMINANT` marks a non-union field).  The `annotations` list on `Node`
and its `Value` payload are used by `capnpc-idiomatic-cpp`'s translator but the
parser module defining them is not part of the sources; they are modelled from
the spec (see `PValue`).
-/

/-- `parser::ast::Type`. -/
inductive PType where
  | void | bool
  | int8 | int16 | int32 | int64
  | uint8 | uint16 | uint32 | uint64
  | float32 | float64
  | text | data
  | list (t : PType)
  | enum (typeId : Nat)
  | struct (typeId : Nat)
  | interface (typeId : Nat)
  | anyPointer
deriving DecidableEq

/-- `parser::ast::field::NO_DISCRIMINANT = 0xFFFF`. -/
def noDiscriminant : Nat := 0xFFFF

/-- `parser::ast::field::Which`. -/
inductive PFieldWhich where
  | slot (t : PType)
  | group (typeId : Nat)
deriving DecidableEq

/-- `parser::ast::Field`. -/
structure PField where
  name : String
  discriminantValue : Nat
  which : PFieldWhich
deriving DecidableEq

/-- `parser::ast::Enumerant`. -/
structure PEnumerant where
  name : String
deriving DecidableEq

/-- `parser::ast::node::NestedNode`. -/
structure PNestedNode where
  id : Nat
  name : String
deriving DecidableEq

/-- `parser::ast::node::Which`; the `Annotation` variant is named `annot`
here. -/
inductive PNodeWhich where
  | file
  | struct (isGroup : Bool) (discriminantCount : Nat) (discriminantOffset : Nat)
      (fields : List PField)
  | enum (enumerants : List PEnumerant)
  | interface
  | const
  | annot
deriving DecidableEq

/-- Modelled from the spec: the value carried by a file-node annotation
("a list of annotations (key-id, value) used to read the target namespace
string", spec section 6).  The parser module defining `parser::ast::Value` is
not among the sources; only its `Text` alternative is consumed
(translator.rs:154, translator.rs:303). -/
inductive PValue where
  | text (s : String)
  | other
deriving DecidableEq

/-- Modelled from the spec: one annotation on a File node, a (key-id, value)
pair (spec section 6); read through `node.annotations()` in
translator.rs:292 and translator.rs:145. -/
structure PAnnot where
  id : Nat
  value : PValue
deriving DecidableEq

/-- `parser::ast::Node`; `annots` is the spec-modelled annotation list (empty
for non-File nodes). -/
structure PNode where
  id : Nat
  displayName : String
  displayNamePrefixLength : Nat
  scopeId : Nat
  nestedNodes : List PNestedNode
  annots : List PAnnot
  which : PNodeWhich
deriving DecidableEq

/-! ## Rust backend AST (`capnpc-abstract-rust/src/rust/ast.rs`) -/

/-- `rust::ast::Type` (rust/ast.rs:27-45). -/
inductive RType where
  | unit | bool
  | int8 | int16 | int32 | int64
  | uint8 | uint16 | uint32 | uint64
  | float32 | float64 | string
  | list (t : RType)
  | refId (id : Nat)
  | refName (fqn : RFqn)
deriving DecidableEq

/-- `rust::ast::EnumOrigin` (rust/ast.rs:19-24). -/
inductive REnumOrigin where
  | enum
  | struct
  | whichForPartialUnion
deriving DecidableEq

/-- `rust::ast::Enumerant` (rust/ast.rs:71-76). -/
structure REnumerant where
  name : RName
  rustType : RType
deriving DecidableEq

/-- `rust::ast::Enum` (rust/ast.rs:47-69). -/
structure REnum where
  id : Nat
  name : RName
  fullyQualifiedTypeName : RFqn
  capnpTypeName : RFqn
  enumOrigin : REnumOrigin
  enumerants : List REnumerant
deriving DecidableEq

/-- `rust::ast::Field` (rust/ast.rs:99-104). -/
structure RField where
  name : RName
  rustType : RType
deriving DecidableEq

/-- `rust::ast::Struct` (rust/ast.rs:78-97). -/
structure RStruct where
  id : Nat
  name : RName
  fullyQualifiedTypeName : RFqn
  capnpTypeName : RFqn
  fields : List RField
deriving DecidableEq

/-- `rust::ast::TypeDef` (rust/ast.rs:106-110). -/
inductive RTypeDef where
  | enum (e : REnum)
  | struct (s : RStruct)
deriving DecidableEq

/-- `rust::ast::SerdeTrait` (rust/ast.rs:112-116). -/
inductive SerdeTrait where
  | readFrom
  | writeTo
deriving DecidableEq

/-- `rust::ast::Impl` (rust/ast.rs:118-123). -/
structure RImpl where
  traitType : SerdeTrait
  forType : RTypeDef
deriving DecidableEq

mutual

/-- `rust::ast::ModuleElement` (rust/ast.rs:125-133); `ExternCrateDecl` is
named `crateDecl` here. -/
inductive RModuleElement where
  | crateDecl (s : String)
  | useDecl (s : String)
  | typeDef (t : RTypeDef)
  | traitDef (t : SerdeTrait)
  | module (m : RModule)
  | implDecl (i : RImpl)

/-- `rust::ast::Module` (rust/ast.rs:135-143). -/
inductive RModule where
  | mk (name : RName) (elements : List RModuleElement)

end

def RModule.name : RModule → RName
  | .mk n _ => n

def RModule.elements : RModule → List RModuleElement
  | .mk _ es => es

/-- `rust::ast::RustAst` (rust/ast.rs:145-149). -/
structure RustAst where
  defs : List RModule

/-! ## Rust backend translation (rust/ast.rs:247-571) -/

/-- `rust::ast::TranslationContext` (rust/ast.rs:251-272). -/
structure RTranslationContext where
  filename : String
  modulePath : List RName
  names : List (Nat × RName)
  children : List (Nat × Nat)
  nodes : List (Nat × PNode)

/-- `TranslationContext::clone_with_submodule` (rust/ast.rs:295-299). -/
def RTranslationContext.cloneWithSubmodule (ctx : RTranslationContext) (n : RName) :
    RTranslationContext :=
  { ctx with modulePath := ctx.modulePath ++ [n] }

/-- `to_lowercase` modelled at the character level (ASCII; the kernel cannot
reduce `String.toLower`). -/
def lowercaseString (s : String) : String :=
  String.mk (s.data.map Char.toLower)

/-- Single-character `replace` modelled at the character level. -/
def replaceChar (s : String) (pat rep : Char) : String :=
  String.mk (s.data.map (fun c => if c = pat then rep else c))

/-- `TranslationContext::generate_capnp_type_name` (rust/ast.rs:301-315):
`Name::from(filename.to_lowercase().replace(".", "_"))` followed by the module
path without its first element and the type name. -/
def RTranslationContext.generateCapnpTypeName (ctx : RTranslationContext) (typeName : RName) :
    RFqn :=
  ⟨[RName.fromString (replaceChar (lowercaseString ctx.filename) '.' '_')]
    ++ ctx.modulePath.drop 1 ++ [typeName]⟩

/-- `TranslationContext::generate_fully_qualified_type_name`
(rust/ast.rs:317-324). -/
def RTranslationContext.generateFullyQualifiedTypeName (ctx : RTranslationContext)
    (typeName : RName) : RFqn :=
  ⟨ctx.modulePath ++ [typeName]⟩

/-- `impl Translator<parser::ast::Type> for Type` (rust/ast.rs:341-367);
`panic!` on the unsupported variants becomes `Except.error`. -/
def rtypeTranslate (ctx : RTranslationContext) : PType → Except String RType
  | .anyPointer => .error "Unsupported type: AnyPointer"
  | .bool => .ok .bool
  | .data => .error "Unsupported type: Data"
  | .enum typeId => .ok (.refId typeId)
  | .float32 => .ok .float32
  | .float64 => .ok .float64
  | .int16 => .ok .int16
  | .int32 => .ok .int32
  | .int64 => .ok .int64
  | .int8 => .ok .int8
  | .interface _ => .error "Unsupported type: Interface"
  | .list t =>
    match rtypeTranslate ctx t with
    | .error e => .error e
    | .ok t2 => .ok (.list t2)
  | .struct typeId => .ok (.refId typeId)
  | .text => .ok .string
  | .uint16 => .ok .uint16
  | .uint32 => .ok .uint32
  | .uint64 => .ok .uint64
  | .uint8 => .ok .uint8
  | .void => .ok .unit

/-- `impl Translator<parser::ast::Field> for Field` (rust/ast.rs:369-378). -/
def rfieldTranslate (ctx : RTranslationContext) (f : PField) : Except String RField :=
  match f.which with
  | .group _ => .error "Groups are not supported."
  | .slot t =>
    match rtypeTranslate ctx t with
    | .error e => .error e
    | .ok t2 => .ok ⟨RName.fromString f.name, t2⟩

/-- `impl Translator<parser::ast::Field> for Enumerant` (rust/ast.rs:380-389). -/
def renumerantOfField (ctx : RTranslationContext) (f : PField) : Except String REnumerant :=
  match f.which with
  | .group _ => .error "Groups are not supported."
  | .slot t =>
    match rtypeTranslate ctx t with
    | .error e => .error e
    | .ok t2 => .ok ⟨RName.fromString f.name, t2⟩

/-- `impl Translator<parser::ast::Enumerant> for Enumerant` (rust/ast.rs:391-395). -/
def renumerantOfEnumerant (e : PEnumerant) : REnumerant :=
  ⟨RName.fromString e.name, .unit⟩

/-- `generate_id_for_which_enum` (rust/ast.rs:545-548): `id + 1`
("Not the best generator but it's easy"). -/
def generateIdForWhichEnum (id : Nat) : Nat :=
  id + 1

/-- `impl Translator<parser::ast::Node> for TypeDef` (rust/ast.rs:397-470).
The `unwrap` on the name lookup and the `panic!`s on non-type nodes become
`Except.error`. -/
def rtypedefTranslate (ctx : RTranslationContext) (n : PNode) : Except String RTypeDef :=
  match n.which with
  | .annot => .error "panic: TypeDef::translate on Annotation"
  | .const => .error "panic: TypeDef::translate on Const"
  | .enum enumerants =>
    match alookup ctx.names n.id with
    | none => .error "unwrap: no name for node"
    | some name =>
      .ok (.enum ⟨n.id, name,
        ctx.generateFullyQualifiedTypeName name,
        ctx.generateCapnpTypeName name,
        .enum,
        enumerants.map renumerantOfEnumerant⟩)
  | .file => .error "panic: TypeDef::translate on File"
  | .interface => .error "panic: TypeDef::translate on Interface"
  | .struct _ dc _ fields =>
    match alookup ctx.names n.id with
    | none => .error "unwrap: no name for node"
    | some name =>
      if dc = fields.length then
        match mapME (renumerantOfField ctx) fields with
        | .error e => .error e
        | .ok es =>
          .ok (.enum ⟨n.id, name,
            ctx.generateFullyQualifiedTypeName name,
            ctx.generateCapnpTypeName name,
            .struct, es⟩)
      else if 0 < dc ∧ dc < fields.length then
        match mapME (rfieldTranslate ctx)
            (fields.filter (fun f => decide (f.discriminantValue = noDiscriminant))) with
        | .error e => .error e
        | .ok newFields =>
          .ok (.struct ⟨n.id, name,
            ctx.generateFullyQualifiedTypeName name,
            ctx.generateCapnpTypeName name,
            newFields ++ [⟨RName.fromString "which", .refId (generateIdForWhichEnum n.id)⟩]⟩)
      else
        match mapME (rfieldTranslate ctx) fields with
        | .error e => .error e
        | .ok fs =>
          .ok (.struct ⟨n.id, name,
            ctx.generateFullyQualifiedTypeName name,
            ctx.generateCapnpTypeName name, fs⟩)

mutual

/-- `impl Translator<parser::ast::Node> for Module` (rust/ast.rs:472-520).
`fuel` bounds the recursion depth through the node graph (the Rust source
recurses unboundedly); a nested-node id missing from the context is skipped
with a diagnostic (the `WARNING` println), everything else mirrors the
source: a `UseDecl` seed, one `TypeDef` per Enum/Struct nested node, one
`Module` per nested node, then the synthesised `Which` enum for a partial
union. -/
def rmoduleTranslate : Nat → RTranslationContext → PNode → Except String RModule
  | 0, _, _ => .error "recursion limit exceeded"
  | fuel+1, ctx, n =>
    match alookup ctx.names n.id with
    | none => .error "unwrap: no name for node"
    | some moduleName =>
      let subctx := ctx.cloneWithSubmodule moduleName
      match rtranslateNested fuel subctx
          [RModuleElement.useDecl "crate::getset::\x7bGetters, CopyGetters, MutGetters, Setters\x7d"]
          n.nestedNodes with
      | .error e => .error e
      | .ok defs =>
        match n.which with
        | .struct _ dc _ fields =>
          if 0 < dc ∧ dc < fields.length then
            match mapME (renumerantOfField subctx)
                (fields.filter (fun f => ! decide (f.discriminantValue = noDiscriminant))) with
            | .error e => .error e
            | .ok es =>
              let whichName := RName.fromString "Which"
              .ok (.mk moduleName (defs ++ [.typeDef (.enum
                ⟨generateIdForWhichEnum n.id, whichName,
                  subctx.generateFullyQualifiedTypeName whichName,
                  ctx.generateCapnpTypeName moduleName,
                  .whichForPartialUnion, es⟩)]))
          else .ok (.mk moduleName defs)
        | _ => .ok (.mk moduleName defs)
termination_by fuel _ _ => (fuel, 0)

/-- The nested-node loop of `Module::translate` (rust/ast.rs:480-497); the
subcontext's `nodes`/`names` maps equal the outer context's, so `subctx` is
used for the lookups. -/
def rtranslateNested : Nat → RTranslationContext → List RModuleElement → List PNestedNode →
    Except String (List RModuleElement)
  | _, _, dst, [] => .ok dst
  | fuel, subctx, dst, nn :: rest =>
    match alookup subctx.nodes nn.id with
    | none => rtranslateNested fuel subctx dst rest
    | some node =>
      match (match node.which with
             | .enum _ | .struct _ _ _ _ =>
               match rtypedefTranslate subctx node with
               | .error e => .error e
               | .ok td => .ok (dst ++ [RModuleElement.typeDef td])
             | _ => .ok dst : Except String (List RModuleElement)) with
      | .error e => .error e
      | .ok dst2 =>
        match rmoduleTranslate fuel subctx node with
        | .error e => .error e
        | .ok m => rtranslateNested fuel subctx (dst2 ++ [.module m]) rest
termination_by fuel _ _ nns => (fuel, nns.length + 1)

end

/-! ## Rust backend reference resolution (rust/ast.rs:573-729)

The `Resolver::resolve` pass; the `unwrap` on a missing table entry
(rust/ast.rs:601) is a panic, modelled as `Option` with `none` for the
aborted run.
-/

/-- `rust::ast::ResolutionContext` (rust/ast.rs:577-582). -/
structure RResolutionContext where
  types : List (Nat × List RName)

/-- `impl Resolver for Type::resolve` (rust/ast.rs:597-608). -/
def rtypeResolve (ctx : RResolutionContext) : RType → Option RType
  | .refId id =>
    match alookup ctx.types id with
    | none => none
    | some names => some (.refName ⟨names⟩)
  | .list t =>
    match rtypeResolve ctx t with
    | none => none
    | some t2 => some (.list t2)
  | t => some t

/-- `impl Resolver for Enumerant::resolve` (rust/ast.rs:610-615). -/
def renumerantResolve (ctx : RResolutionContext) (e : REnumerant) : Option REnumerant :=
  match rtypeResolve ctx e.rustType with
  | none => none
  | some t => some ⟨e.name, t⟩

/-- `impl Resolver for Field::resolve` (rust/ast.rs:617-622). -/
def rfieldResolve (ctx : RResolutionContext) (f : RField) : Option RField :=
  match rtypeResolve ctx f.rustType with
  | none => none
  | some t => some ⟨f.name, t⟩

/-- `impl Resolver for Enum::resolve` (rust/ast.rs:624-638). -/
def renumResolve (ctx : RResolutionContext) (e : REnum) : Option REnum :=
  match mapMO (renumerantResolve ctx) e.enumerants with
  | none => none
  | some es => some ⟨e.id, e.name, e.fullyQualifiedTypeName, e.capnpTypeName, e.enumOrigin, es⟩

/-- `impl Resolver for Struct::resolve` (rust/ast.rs:640-653). -/
def rstructResolve (ctx : RResolutionContext) (s : RStruct) : Option RStruct :=
  match mapMO (rfieldResolve ctx) s.fields with
  | none => none
  | some fs => some ⟨s.id, s.name, s.fullyQualifiedTypeName, s.capnpTypeName, fs⟩

/-- `impl Resolver for TypeDef::resolve` (rust/ast.rs:655-671). -/
def rtypedefResolve (ctx : RResolutionContext) : RTypeDef → Option RTypeDef
  | .enum e =>
    match renumResolve ctx e with
    | none => none
    | some e2 => some (.enum e2)
  | .struct s =>
    match rstructResolve ctx s with
    | none => none
    | some s2 => some (.struct s2)

mutual

/-- `impl Resolver for Module::resolve` (rust/ast.rs:709-714). -/
def rmoduleResolve (ctx : RResolutionContext) : RModule → Option RModule
  | .mk name elements =>
    match relementsResolve ctx elements with
    | none => none
    | some es => some (.mk name es)

/-- The element loop of `Module::resolve`. -/
def relementsResolve (ctx : RResolutionContext) :
    List RModuleElement → Option (List RModuleElement)
  | [] => some []
  | e :: rest =>
    match relementResolve ctx e with
    | none => none
    | some e2 =>
      match relementsResolve ctx rest with
      | none => none
      | some es => some (e2 :: es)

/-- `impl Resolver for ModuleElement::resolve` (rust/ast.rs:684-693): only
`TypeDef` and `Module` elements are rewritten, the rest are cloned. -/
def relementResolve (ctx : RResolutionContext) : RModuleElement → Option RModuleElement
  | .useDecl s => some (.useDecl s)
  | .crateDecl s => some (.crateDecl s)
  | .typeDef d =>
    match rtypedefResolve ctx d with
    | none => none
    | some d2 => some (.typeDef d2)
  | .module m =>
    match rmoduleResolve ctx m with
    | none => none
    | some m2 => some (.module m2)
  | .traitDef t => some (.traitDef t)
  | .implDecl i => some (.implDecl i)

end

/-- `impl Resolver for RustAst::resolve` (rust/ast.rs:722-728). -/
def rustAstResolve (ctx : RResolutionContext) (a : RustAst) : Option RustAst :=
  match mapMO (rmoduleResolve ctx) a.defs with
  | none => none
  | some ds => some ⟨ds⟩

/-! `RefId`-freeness of a resolved AST. -/

def rtypeNoRefId : RType → Bool
  | .refId _ => false
  | .list t => rtypeNoRefId t
  | _ => true

def rtypedefNoRefId : RTypeDef → Bool
  | .enum e => e.enumerants.all (fun x => rtypeNoRefId x.rustType)
  | .struct s => s.fields.all (fun x => rtypeNoRefId x.rustType)

mutual

def rmoduleNoRefId : RModule → Bool
  | .mk _ elements => relementsNoRefId elements

def relementsNoRefId : List RModuleElement → Bool
  | [] => true
  | e :: rest => relementNoRefId e && relementsNoRefId rest

def relementNoRefId : RModuleElement → Bool
  | .typeDef d => rtypedefNoRefId d
  | .module m => rmoduleNoRefId m
  | _ => true

end

def rustAstNoRefId (a : RustAst) : Bool :=
  a.defs.all rmoduleNoRefId

/-! Structural-copy relation for the resolve pass: two ASTs agree everywhere
except that a `RefId` leaf on the left may face a `RefName` leaf on the right
(also under `List`).  This is the spec-side statement of claim C9, compared
against the source-side `resolve` functions. -/

def rtypeRel : RType → RType → Bool
  | .refId _, .refName _ => true
  | .list a, .list b => rtypeRel a b
  | a, b => decide (a = b)

def listRel (r : α → β → Bool) : List α → List β → Bool
  | [], [] => true
  | a :: as_, b :: bs => r a b && listRel r as_ bs
  | _, _ => false

def renumerantRel (a b : REnumerant) : Bool :=
  decide (a.name = b.name) && rtypeRel a.rustType b.rustType

def rfieldRel (a b : RField) : Bool :=
  decide (a.name = b.name) && rtypeRel a.rustType b.rustType

def renumRel (a b : REnum) : Bool :=
  decide (a.id = b.id) && decide (a.name = b.name) &&
  decide (a.fullyQualifiedTypeName = b.fullyQualifiedTypeName) &&
  decide (a.capnpTypeName = b.capnpTypeName) &&
  decide (a.enumOrigin = b.enumOrigin) &&
  listRel renumerantRel a.enumerants b.enumerants

def rstructRel (a b : RStruct) : Bool :=
  decide (a.id = b.id) && decide (a.name = b.name) &&
  decide (a.fullyQualifiedTypeName = b.fullyQualifiedTypeName) &&
  decide (a.capnpTypeName = b.capnpTypeName) &&
  listRel rfieldRel a.fields b.fields

def rtypedefRel : RTypeDef → RTypeDef → Bool
  | .enum a, .enum b => renumRel a b
  | .struct a, .struct b => rstructRel a b
  | _, _ => false

mutual

def rmoduleRel : RModule → RModule → Bool
  | .mk n1 es1, .mk n2 es2 => decide (n1 = n2) && relementsRel es1 es2

def relementsRel : List RModuleElement → List RModuleElement → Bool
  | [], [] => true
  | e1 :: r1, e2 :: r2 => relementRel e1 e2 && relementsRel r1 r2
  | _, _ => false

def relementRel : RModuleElement → RModuleElement → Bool
  | .useDecl a, .useDecl b => decide (a = b)
  | .crateDecl a, .crateDecl b => decide (a = b)
  | .traitDef a, .traitDef b => decide (a = b)
  | .implDecl a, .implDecl b => decide (a = b)
  | .typeDef a, .typeDef b => rtypedefRel a b
  | .module a, .module b => rmoduleRel a b
  | _, _ => false

end

def rustAstRel (a b : RustAst) : Bool :=
  listRel rmoduleRel a.defs b.defs

/-! ## C++ backend AST (`capnpc-idiomatic-cpp/src/cpp/ast.rs`) -/

/-- `cpp::ast::CppType` (cpp/ast.rs:28-45). -/
inductive CppType where
  | void | bool | char | short | int | long
  | uchar | ushort | uint | ulong
  | float | double | string
  | vector (t : CppType)
  | refId (id : Nat)
deriving DecidableEq

/-- `cpp::ast::Field` (cpp/ast.rs:55-60). -/
structure CField where
  name : CName
  cppType : CppType
deriving DecidableEq

/-- `cpp::ast::EnumClass` (cpp/ast.rs:47-53). -/
structure EnumClass where
  id : Nat
  name : CName
  enumerants : List CName
deriving DecidableEq

/-- `cpp::ast::UnnamedUnion` (cpp/ast.rs:72-77). -/
structure UnnamedUnion where
  id : Nat
  fields : List CField
deriving DecidableEq

/-- `cpp::ast::ComplexTypeDef` together with `cpp::ast::Class`
(cpp/ast.rs:62-83): `Class` is recursive through `inner_types`, so its struct
fields are inlined into the `cls` constructor (in source order: id, name,
inner_types, union, fields). -/
inductive ComplexTypeDef where
  | enumClass (e : EnumClass)
  | cls (id : Nat) (name : CName) (innerTypes : List ComplexTypeDef)
      (union : Option UnnamedUnion) (fields : List CField)

/-- `ComplexTypeDef::id` (cpp/ast.rs:385-390). -/
def ComplexTypeDef.id : ComplexTypeDef → Nat
  | .enumClass e => e.id
  | .cls i _ _ _ _ => i

/-- `ComplexTypeDef::name` (cpp/ast.rs:392-397). -/
def ComplexTypeDef.name : ComplexTypeDef → CName
  | .enumClass e => e.name
  | .cls _ n _ _ _ => n

/-- `cpp::ast::Namespace` (cpp/ast.rs:85-91); the `HashMap<Name, Namespace>`
of child namespaces becomes an association list. -/
inductive CNamespace where
  | mk (defs : List ComplexTypeDef) (namespaces : List (CName × CNamespace))

def CNamespace.defs : CNamespace → List ComplexTypeDef
  | .mk ds _ => ds

def CNamespace.namespaces : CNamespace → List (CName × CNamespace)
  | .mk _ ns => ns

/-- `Namespace::empty` (cpp/ast.rs:312-314). -/
def CNamespace.empty : CNamespace := .mk [] []

mutual

/-- `Namespace::get_or_create_namespace_mut` followed by pushing `newDefs`
into the target namespace's `defs` (translator.rs:310 and
translator.rs:312-324 operate exactly this way on the mutable root). -/
def pushDefsAt (path : List CName) (newDefs : List ComplexTypeDef) :
    CNamespace → CNamespace
  | .mk ds children =>
    match path with
    | [] => .mk (ds ++ newDefs) children
    | k :: rest => .mk ds (upsertChild k rest newDefs children)
termination_by (path.length, 0)

/-- Walk/extend the child map: existing key reused
(`create_empty_namespace` inserts a fresh empty namespace otherwise). -/
def upsertChild (k : CName) (rest : List CName) (newDefs : List ComplexTypeDef) :
    List (CName × CNamespace) → List (CName × CNamespace)
  | [] => [(k, pushDefsAt rest newDefs CNamespace.empty)]
  | (k2, v) :: tail =>
    if k = k2 then (k2, pushDefsAt rest newDefs v) :: tail
    else (k2, v) :: upsertChild k rest newDefs tail
termination_by children => (rest.length, children.length + 1)

end

/-! ## C++ backend translator (`capnpc-idiomatic-cpp/src/cpp/translator.rs`) -/

/-- The translator `Context` (translator.rs:9-37), restricted to the fields
the embedded functions read: the recognised idiomatic-namespace annotation id,
the `names`/`children`/`nodes` maps and the current namespace path. -/
structure CppContext where
  idiomaticNamespaceAnnotId : Nat
  namespacePath : List CName
  names : List (Nat × CName)
  children : List (Nat × Nat)
  nodes : List (Nat × PNode)

/-- `Context::with_namespace` (translator.rs:54-58). -/
def CppContext.withNamespace (ctx : CppContext) (path : List CName) : CppContext :=
  { ctx with namespacePath := path }

/-- `MultiMap::get_vec` on `ctx.children` (translator.rs:217-219): all child
ids recorded for a node, in insertion order. -/
def cppChildIds (ctx : CppContext) (id : Nat) : List Nat :=
  (ctx.children.filter (fun p => decide (p.1 = id))).map Prod.snd

/-- `translate_parser_type_to_cpp_type` (translator.rs:164-186). -/
def translateParserTypeToCppType : PType → Except String CppType
  | .void => .ok .void
  | .bool => .ok .bool
  | .int8 => .ok .char
  | .int16 => .ok .short
  | .int32 => .ok .int
  | .int64 => .ok .long
  | .uint8 => .ok .uchar
  | .uint16 => .ok .ushort
  | .uint32 => .ok .uint
  | .uint64 => .ok .ulong
  | .float32 => .ok .float
  | .float64 => .ok .double
  | .text => .ok .string
  | .data => .error "Unsupported type 'Data'"
  | .list t =>
    match translateParserTypeToCppType t with
    | .error e => .error e
    | .ok t2 => .ok (.vector t2)
  | .enum typeId => .ok (.refId typeId)
  | .struct typeId => .ok (.refId typeId)
  | .interface _ => .error "Unsupported type 'Interface'"
  | .anyPointer => .error "Unsupported type 'AnyPointer'"

/-- `translate_parser_field_to_cpp_field` (translator.rs:188-195). -/
def translateParserFieldToCppField (f : PField) : Except String CField :=
  match f.which with
  | .group _ => .error "Groups are not supported."
  | .slot t =>
    match translateParserTypeToCppType t with
    | .error e => .error e
    | .ok t2 => .ok ⟨CName.fromString f.name, t2⟩

/-- `translate_parser_field_to_enumerant` (translator.rs:197-204). -/
def translateParserFieldToEnumerant (f : PField) : Except String CName :=
  match f.which with
  | .group _ => .error "Groups are not supported."
  | .slot _ => .ok (CName.fromString f.name)

/-- `generate_refid_for_union_which` (translator.rs:206-208): `id + 1`. -/
def generateRefidForUnionWhich (id : Nat) : Nat :=
  id + 1

mutual

/-- `generate_base_ast_type_for_node` (translator.rs:210-289); `fuel` bounds
the recursion through `ctx.children`.  Note the source's union handling: any
`discriminant_count > 0` produces a `Class` with an `UnnamedUnion` and a
synthesised `Which` enum-class whose enumerants come from *all* fields. -/
def generateBaseAstTypeForNode : Nat → CppContext → PNode → Except String ComplexTypeDef
  | 0, _, _ => .error "recursion limit exceeded"
  | fuel+1, ctx, node =>
    match alookup ctx.names node.id with
    | none => .error "Unable to determine name for node"
    | some name =>
      match generateInnerTypes fuel ctx (cppChildIds ctx node.id) with
      | .error e => .error e
      | .ok innerTypes =>
        match node.which with
        | .file => .error "Generating ast for file in incorrect area of the code."
        | .struct _ dc _ fields =>
          if 0 < dc then
            match mapME translateParserFieldToCppField
                (fields.filter (fun f => decide (f.discriminantValue = noDiscriminant))) with
            | .error e => .error e
            | .ok classFields0 =>
              let classFields := classFields0 ++
                [⟨CName.fromString "which", .refId (generateRefidForUnionWhich node.id)⟩]
              match mapME translateParserFieldToCppField
                  (fields.filter (fun f => ! decide (f.discriminantValue = noDiscriminant))) with
              | .error e => .error e
              | .ok unionFields =>
                match mapME translateParserFieldToEnumerant fields with
                | .error e => .error e
                | .ok whichEnumerants =>
                  .ok (.cls node.id name
                    (innerTypes ++ [.enumClass
                      ⟨generateRefidForUnionWhich node.id, CName.fromString "Which",
                        whichEnumerants⟩])
                    (some ⟨node.id, unionFields⟩)
                    classFields)
          else
            match mapME translateParserFieldToCppField fields with
            | .error e => .error e
            | .ok fs => .ok (.cls node.id name innerTypes none fs)
        | .enum enumerants =>
          .ok (.enumClass ⟨node.id, name,
            enumerants.map (fun e => CName.fromString e.name)⟩)
        | .interface => .error "Interfaces are not supported."
        | .const => .error "Constants are not supported."
        | .annot => .error "Generating ast for annotation in incorrect area of the code."
termination_by fuel _ _ => (fuel, 0)

/-- The inner-types loop of `generate_base_ast_type_for_node`
(translator.rs:217-223); a child id missing from `ctx.nodes` is the
`unwrap` panic. -/
def generateInnerTypes : Nat → CppContext → List Nat → Except String (List ComplexTypeDef)
  | _, _, [] => .ok []
  | fuel, ctx, childId :: rest =>
    match alookup ctx.nodes childId with
    | none => .error "unwrap: no node for child id"
    | some child =>
      match generateBaseAstTypeForNode fuel ctx child with
      | .error e => .error e
      | .ok d =>
        match generateInnerTypes fuel ctx rest with
        | .error e => .error e
        | .ok ds => .ok (d :: ds)
termination_by fuel _ ids => (fuel, ids.length + 1)

end

/-- `generate_base_ast_for_file_node` (translator.rs:291-325).  A missing
idiomatic-namespace annotation skips the file (the `INFO` println), leaving
the root untouched; a non-text annotation value is the `panic!`; otherwise
every non-annotation node whose `scope_id` is this file is translated and
pushed into the namespace at the annotated path. -/
def generateBaseAstForFileNode (fuel : Nat) (ctx : CppContext) (nodes : List PNode)
    (node : PNode) (root : CNamespace) : Except String CNamespace :=
  match (node.annots.filter
      (fun a => decide (a.id = ctx.idiomaticNamespaceAnnotId))).getLast? with
  | none => .ok root
  | some ann =>
    match ann.value with
    | .other => .error "Namespace annotation was not a string."
    | .text t =>
      let path := (t.splitOn "::").map CName.fromString
      match mapME (generateBaseAstTypeForNode fuel (ctx.withNamespace path))
          (nodes.filter (fun c =>
            decide (c.scopeId = node.id) && ! decide (c.which = PNodeWhich.annot))) with
      | .error e => .error e
      | .ok ds => .ok (pushDefsAt path ds root)

/-- `generate_base_ast` (translator.rs:327-335). -/
def generateBaseAst (fuel : Nat) (ctx : CppContext) (nodes : List PNode) :
    Except String CNamespace :=
  foldME (fun root n => generateBaseAstForFileNode fuel ctx nodes n root)
    CNamespace.empty
    (nodes.filter (fun n => decide (n.which = PNodeWhich.file)))

/-! ## C++ backend codegen context (`cpp/codegen/mod.rs`) -/

/-- The part of the codegen `Context` read by `resolve_full_name`: the
`type_info` table mapping a type id to its fully qualified name
(codegen/mod.rs:23-28, field `type_info`, restricted to the `fqn`
component). -/
structure CodegenContext where
  typeInfoFqn : List (Nat × CFqn)

/-- `Context::resolve_full_name` (codegen/mod.rs:82-91): a missing id is NOT
fatal — it prints a warning and emits the placeholder string `ref<id>`. -/
def resolveFullName (ctx : CodegenContext) (id : Nat) : String :=
  match alookup ctx.typeInfoFqn id with
  | some fqn => fqn.render
  | none => s!"ref<{id}>"

/-! ## Dependency orderer (`cpp/codegen/header.rs:347-448`)

`insert_names_sorted_by_dependencies` is a depth-first insertion with a
transient `queue` breaking cycles.  The algorithm only compares names for
equality, so it is embedded generically over a type with decidable equality
(the source instantiates it at `cpp::ast::Name`); the `HashMap<&Name,
Vec<Name>>` of dependency lists becomes an association list.
-/

section Orderer

variable {α : Type} [DecidableEq α]

/-- The measure driving termination: map keys not yet on the queue.  Every
recursive descent pushes the current (not-yet-queued) key onto the queue, so
this strictly decreases. -/
def keysOutside (deps : List (α × List α)) (queue : List α) : Nat :=
  ((deps.map Prod.fst).filter (fun k => decide (¬ k ∈ queue))).length

theorem keysOutside_append_lt (deps : List (α × List α)) (queue : List α) (name : α)
    (hk : name ∈ deps.map Prod.fst) (hq : ¬ name ∈ queue) :
    keysOutside deps (queue ++ [name]) < keysOutside deps queue :=
  length_filter_lt_of_imp _ _ _
    (fun x hx => by simp at hx ⊢; exact hx.1) name hk (by simp) (by simpa using hq)

mutual

/-- `insert_names_sorted_by_dependencies` (header.rs:347-377): skip if `name`
is already placed (`dst`) or currently being placed (`queue`); otherwise place
all its dependencies first (with `name` pushed onto the queue) and then append
`name`. -/
def insertSorted (deps : List (α × List α)) (dst : List α) (name : α) (queue : List α) :
    List α :=
  if name ∈ dst ∨ name ∈ queue then dst
  else if hk : (alookup deps name).isSome then
    insertMany deps dst ((alookup deps name).getD []) (queue ++ [name]) ++ [name]
  else dst ++ [name]
termination_by (keysOutside deps queue, 0)
decreasing_by
  apply Prod.Lex.left
  apply keysOutside_append_lt
  · obtain ⟨ds, hds⟩ := Option.isSome_iff_exists.mp hk
    exact List.mem_map.mpr ⟨(name, ds), alookup_mem hds, rfl⟩
  · tauto

/-- The `for dep in dep_list` loop of `insert_names_sorted_by_dependencies`
(header.rs:365-373). -/
def insertMany (deps : List (α × List α)) (dst : List α) (names : List α)
    (queue : List α) : List α :=
  match names with
  | [] => dst
  | n :: rest => insertMany deps (insertSorted deps dst n queue) rest queue
termination_by (keysOutside deps queue, names.length + 1)
decreasing_by
  · apply Prod.Lex.right; omega
  · apply Prod.Lex.right; simp

end

/-- The driving loop of `codegen_namespace_contents` (header.rs:397-400 for
namespaces, header.rs:419-422 for types): insert every sibling in turn,
starting from an empty output and an empty queue. -/
def orderNames (deps : List (α × List α)) (names : List α) : List α :=
  names.foldl (fun dst n => insertSorted deps dst n []) []

/-- The dependency list the orderer consults for an entity. -/
def depsOfName (deps : List (α × List α)) (a : α) : List α :=
  (alookup deps a).getD []

/-- `a` occurs strictly before `b` in `l`. -/
def appearsBefore (l : List α) (a b : α) : Prop :=
  ∃ l1 l2 l3, l = l1 ++ a :: l2 ++ b :: l3

/-- Every placed entity is preceded by all its placed dependencies. -/
def OrderedByDeps (deps : List (α × List α)) (l : List α) : Prop :=
  ∀ E, E ∈ l → ∀ D, D ∈ depsOfName deps E → D ≠ E → appearsBefore l D E

end Orderer

section OrdererLemmas

variable {α : Type} [DecidableEq α]

theorem insertSorted_isPres (deps : List (α × List α)) :
    ∀ dst name queue, ∃ t, insertSorted deps dst name queue = dst ++ t := by
  intro dst name queue
  refine insertSorted.induct deps
    (fun dst name queue => ∃ t, insertSorted deps dst name queue = dst ++ t)
    (fun dst names queue => ∃ t, insertMany deps dst names queue = dst ++ t)
    ?_ ?_ ?_ ?_ ?_ dst name queue
  · intro dst name queue h
    rw [insertSorted, if_pos h]
    exact ⟨[], by simp⟩
  · intro dst name queue h hk ih
    rw [insertSorted, if_neg h, dif_pos hk]
    obtain ⟨t, ht⟩ := ih
    exact ⟨t ++ [name], by rw [ht]; simp⟩
  · intro dst name queue h hk
    rw [insertSorted, if_neg h, dif_neg hk]
    exact ⟨[name], rfl⟩
  · intro dst queue
    exact ⟨[], by rw [insertMany]; simp⟩
  · intro dst queue n rest ih1 ih2
    rw [insertMany]
    obtain ⟨t1, ht1⟩ := ih1
    obtain ⟨t2, ht2⟩ := ih2
    exact ⟨t1 ++ t2, by rw [ht2, ht1]; simp⟩

theorem insertMany_isPres (deps : List (α × List α)) :
    ∀ (names : List α) dst queue, ∃ t, insertMany deps dst names queue = dst ++ t := by
  intro names
  induction names with
  | nil =>
    intro dst queue
    exact ⟨[], by rw [insertMany]; simp⟩
  | cons n rest ih =>
    intro dst queue
    rw [insertMany]
    obtain ⟨t1, ht1⟩ := insertSorted_isPres deps dst n queue
    obtain ⟨t2, ht2⟩ := ih (insertSorted deps dst n queue) queue
    exact ⟨t1 ++ t2, by rw [ht2, ht1]; simp⟩

theorem insertSorted_new_notin_queue (deps : List (α × List α)) :
    ∀ dst name queue, ∀ x ∈ insertSorted deps dst name queue, x ∈ dst ∨ ¬ x ∈ queue := by
  intro dst name queue
  refine insertSorted.induct deps
    (fun dst name queue => ∀ x ∈ insertSorted deps dst name queue, x ∈ dst ∨ ¬ x ∈ queue)
    (fun dst names queue => ∀ x ∈ insertMany deps dst names queue, x ∈ dst ∨ ¬ x ∈ queue)
    ?_ ?_ ?_ ?_ ?_ dst name queue
  · intro dst name queue h x hx
    rw [insertSorted, if_pos h] at hx
    exact Or.inl hx
  · intro dst name queue h hk ih x hx
    rw [insertSorted, if_neg h, dif_pos hk] at hx
    rcases List.mem_append.mp hx with hx1 | hx2
    · rcases ih x hx1 with h1 | h2
      · exact Or.inl h1
      · exact Or.inr (fun hc => h2 (List.mem_append.mpr (Or.inl hc)))
    · have : x = name := by simpa using hx2
      subst this
      exact Or.inr (fun hc => h (Or.inr hc))
  · intro dst name queue h hk x hx
    rcases List.mem_append.mp (by rwa [insertSorted, if_neg h, dif_neg hk] at hx) with hx1 | hx2
    · exact Or.inl hx1
    · have : x = name := by simpa using hx2
      subst this
      exact Or.inr (fun hc => h (Or.inr hc))
  · intro dst queue x hx
    rw [insertMany] at hx
    exact Or.inl hx
  · intro dst queue n rest ih1 ih2 x hx
    rw [insertMany] at hx
    rcases ih2 x hx with h1 | h2
    · exact ih1 x h1
    · exact Or.inr h2

theorem insertMany_new_notin_queue (deps : List (α × List α)) :
    ∀ (names : List α) dst queue, ∀ x ∈ insertMany deps dst names queue,
      x ∈ dst ∨ ¬ x ∈ queue := by
  intro names
  induction names with
  | nil =>
    intro dst queue x hx
    rw [insertMany] at hx
    exact Or.inl hx
  | cons n rest ih =>
    intro dst queue x hx
    rw [insertMany] at hx
    rcases ih _ _ x hx with h1 | h2
    · exact insertSorted_new_notin_queue deps dst n queue x h1
    · exact Or.inr h2

theorem insertSorted_mem_self (deps : List (α × List α)) (dst : List α) (name : α)
    (queue : List α) (hq : ¬ name ∈ queue) :
    name ∈ insertSorted deps dst name queue := by
  rw [insertSorted]
  by_cases h : name ∈ dst ∨ name ∈ queue
  · rw [if_pos h]
    exact h.resolve_right hq
  · rw [if_neg h]
    by_cases hk : (alookup deps name).isSome
    · rw [dif_pos hk]; simp
    · rw [dif_neg hk]; simp

theorem insertSorted_mem_mono (deps : List (α × List α)) (dst : List α) (name x : α)
    (queue : List α) (hx : x ∈ dst) : x ∈ insertSorted deps dst name queue := by
  obtain ⟨t, ht⟩ := insertSorted_isPres deps dst name queue
  rw [ht]
  exact List.mem_append.mpr (Or.inl hx)

theorem insertMany_mem_mono (deps : List (α × List α)) (names dst : List α) (x : α)
    (queue : List α) (hx : x ∈ dst) : x ∈ insertMany deps dst names queue := by
  obtain ⟨t, ht⟩ := insertMany_isPres deps names dst queue
  rw [ht]
  exact List.mem_append.mpr (Or.inl hx)

theorem insertMany_mem (deps : List (α × List α)) :
    ∀ (names : List α) dst queue n, n ∈ names → ¬ n ∈ queue →
      n ∈ insertMany deps dst names queue := by
  intro names
  induction names with
  | nil =>
    intro dst queue n hn
    simp at hn
  | cons m rest ih =>
    intro dst queue n hn hq
    rw [insertMany]
    rcases List.mem_cons.mp hn with rfl | hn'
    · exact insertMany_mem_mono deps rest _ n queue (insertSorted_mem_self deps dst n queue hq)
    · exact ih _ _ n hn' hq

theorem insertSorted_nodup (deps : List (α × List α)) :
    ∀ dst name queue, dst.Nodup → (insertSorted deps dst name queue).Nodup := by
  intro dst name queue
  refine insertSorted.induct deps
    (fun dst name queue => dst.Nodup → (insertSorted deps dst name queue).Nodup)
    (fun dst names queue => dst.Nodup → (insertMany deps dst names queue).Nodup)
    ?_ ?_ ?_ ?_ ?_ dst name queue
  · intro dst name queue h hd
    rw [insertSorted, if_pos h]
    exact hd
  · intro dst name queue h hk ih hd
    rw [insertSorted, if_neg h, dif_pos hk]
    refine List.nodup_append.mpr ⟨ih hd, by simp, ?_⟩
    intro a ha hb
    have haname : a = name := by simpa using hb
    subst haname
    rcases insertMany_new_notin_queue deps _ _ _ a ha with h1 | h2
    · exact h (Or.inl h1)
    · exact h2 (by simp)
  · intro dst name queue h hk hd
    rw [insertSorted, if_neg h, dif_neg hk]
    refine List.nodup_append.mpr ⟨hd, by simp, ?_⟩
    intro a ha hb
    have : a = name := by simpa using hb
    subst this
    exact h (Or.inl ha)
  · intro dst queue hd
    rw [insertMany]
    exact hd
  · intro dst queue n rest ih1 ih2 hd
    rw [insertMany]
    exact ih2 (ih1 hd)

theorem insertSorted_orderedByDeps (deps : List (α × List α)) (rank : α → Nat)
    (hacyc : ∀ p ∈ deps, ∀ d ∈ p.2, d ≠ p.1 → rank d < rank p.1) :
    ∀ dst name queue,
      OrderedByDeps deps dst →
      (name ∈ queue ∨ ∀ q ∈ queue, rank name < rank q) →
      OrderedByDeps deps (insertSorted deps dst name queue) := by
  have hacyc' : ∀ E D, D ∈ depsOfName deps E → D ≠ E → rank D < rank E := by
    intro E D hD hne
    rw [depsOfName] at hD
    cases hds : alookup deps E with
    | none => rw [hds] at hD; simp at hD
    | some ds =>
      rw [hds] at hD
      simp at hD
      exact hacyc (E, ds) (alookup_mem hds) D hD hne
  intro dst name queue
  refine insertSorted.induct deps
    (fun dst name queue =>
      OrderedByDeps deps dst →
      (name ∈ queue ∨ ∀ q ∈ queue, rank name < rank q) →
      OrderedByDeps deps (insertSorted deps dst name queue))
    (fun dst names queue =>
      OrderedByDeps deps dst →
      (∀ n ∈ names, n ∈ queue ∨ ∀ q ∈ queue, rank n < rank q) →
      OrderedByDeps deps (insertMany deps dst names queue))
    ?_ ?_ ?_ ?_ ?_ dst name queue
  · intro dst name queue h hord hq
    rw [insertSorted, if_pos h]
    exact hord
  · intro dst name queue h hk ih hord hq
    have hnq : ¬ name ∈ queue := fun hc => h (Or.inr hc)
    have hq' : ∀ q ∈ queue, rank name < rank q := hq.resolve_left hnq
    rw [insertSorted, if_neg h, dif_pos hk]
    have hds_hyp : ∀ n ∈ (alookup deps name).getD [],
        n ∈ queue ++ [name] ∨ ∀ q ∈ queue ++ [name], rank n < rank q := by
      intro n hn
      by_cases hne : n = name
      · subst hne
        exact Or.inl (by simp)
      · right
        have hlt : rank n < rank name := hacyc' name n (by rwa [depsOfName]) hne
        intro q hqmem
        rcases List.mem_append.mp hqmem with hq1 | hq2
        · exact lt_trans hlt (hq' q hq1)
        · have : q = name := by simpa using hq2
          subst this
          exact hlt
    have hmid := ih hord hds_hyp
    intro E hE D hD hne
    rcases List.mem_append.mp hE with hEmid | hEname
    · obtain ⟨l1, l2, l3, hsplit⟩ := hmid E hEmid D hD hne
      exact ⟨l1, l2, l3 ++ [name], by rw [hsplit]; simp⟩
    · have hEeq : E = name := by simpa using hEname
      subst hEeq
      have hDds : D ∈ (alookup deps E).getD [] := by rwa [depsOfName] at hD
      have hDnotq : ¬ D ∈ queue ++ [E] := by
        intro hDq
        rcases List.mem_append.mp hDq with h1 | h2
        · exact absurd (hacyc' E D hD hne) (not_lt.mpr (le_of_lt (hq' D h1)))
        · have : D = E := by simpa using h2
          exact hne this
      have hDmid : D ∈ insertMany deps dst ((alookup deps E).getD []) (queue ++ [E]) :=
        insertMany_mem deps _ _ _ D hDds hDnotq
      obtain ⟨l1, l2, hDsplit⟩ := List.append_of_mem hDmid
      exact ⟨l1, l2, [], by rw [hDsplit]; try simp⟩
  · intro dst name queue h hk hord hq
    rw [insertSorted, if_neg h, dif_neg hk]
    intro E hE D hD hne
    rcases List.mem_append.mp hE with hEdst | hEname
    · obtain ⟨l1, l2, l3, hsplit⟩ := hord E hEdst D hD hne
      exact ⟨l1, l2, l3 ++ [name], by rw [hsplit]; simp⟩
    · have hEeq : E = name := by simpa using hEname
      subst hEeq
      rw [depsOfName, Option.not_isSome_iff_eq_none.mp hk] at hD
      simp at hD
  · intro dst queue hord hq
    rw [insertMany]
    exact hord
  · intro dst queue n rest ih1 ih2 hord hq
    rw [insertMany]
    exact ih2 (ih1 hord (hq n (by simp))) (fun m hm => hq m (by simp [hm]))

theorem orderNames_orderedByDeps (deps : List (α × List α)) (rank : α → Nat)
    (hacyc : ∀ p ∈ deps, ∀ d ∈ p.2, d ≠ p.1 → rank d < rank p.1)
    (names : List α) :
    OrderedByDeps deps (orderNames deps names) := by
  rw [orderNames]
  have : ∀ (ns : List α) (dst : List α), OrderedByDeps deps dst →
      OrderedByDeps deps (ns.foldl (fun dst n => insertSorted deps dst n []) dst) := by
    intro ns
    induction ns with
    | nil => intro dst h; exact h
    | cons n rest ih =>
      intro dst h
      rw [List.foldl_cons]
      exact ih _ (insertSorted_orderedByDeps deps rank hacyc dst n [] h (Or.inr (by simp)))
  exact this names [] (by intro E hE; simp at hE)

theorem orderNames_mem (deps : List (α × List α)) (names : List α) (n : α)
    (hn : n ∈ names) : n ∈ orderNames deps names := by
  rw [orderNames]
  have : ∀ (ns : List α) (dst : List α) (x : α), x ∈ ns ∨ x ∈ dst →
      x ∈ ns.foldl (fun dst n => insertSorted deps dst n []) dst := by
    intro ns
    induction ns with
    | nil =>
      intro dst x hx
      rcases hx with h | h
      · simp at h
      · simpa using h
    | cons m rest ih =>
      intro dst x hx
      rw [List.foldl_cons]
      rcases hx with h | h
      · rcases List.mem_cons.mp h with rfl | h'
        · exact ih _ x (Or.inr (insertSorted_mem_self deps dst x [] (by simp)))
        · exact ih _ x (Or.inl h')
      · exact ih _ x (Or.inr (insertSorted_mem_mono deps dst m x [] h))
  exact this names [] n (Or.inl hn)

theorem orderNames_nodup (deps : List (α × List α)) (names : List α) :
    (orderNames deps names).Nodup := by
  rw [orderNames]
  have : ∀ (ns : List α) (dst : List α), dst.Nodup →
      (ns.foldl (fun dst n => insertSorted deps dst n []) dst).Nodup := by
    intro ns
    induction ns with
    | nil => intro dst h; simpa using h
    | cons n rest ih =>
      intro dst h
      rw [List.foldl_cons]
      exact ih _ (insertSorted_nodup deps dst n [] h)
  exact this names [] (by simp)

end OrdererLemmas

/-! ## Claim-side predicates and concrete inputs -/

/-- A parser type contains an unsupported construct (`Data`, `AnyPointer` or
an `Interface` type), possibly nested under `List`. -/
def ptypeHasUnsupported : PType → Bool
  | .data => true
  | .anyPointer => true
  | .interface _ => true
  | .list t => ptypeHasUnsupported t
  | _ => false

/-- C4: a schema graph whose node 10 is a partial union (one plain field, one
discriminated field) and whose node 11 is a real Enum node — consecutive real
ids. -/
def nodeC4a : PNode :=
  ⟨10, "test.capnp:Thing", 11, 1, [], [],
    .struct false 1 0
      [⟨"a", noDiscriminant, .slot .int32⟩, ⟨"b", 0, .slot .void⟩]⟩

def nodeC4b : PNode :=
  ⟨11, "test.capnp:Other", 11, 1, [], [], .enum [⟨"x"⟩]⟩

def ctxC4 : RTranslationContext :=
  ⟨"test.capnp", [],
    [(10, RName.fromString "Thing"), (11, RName.fromString "Other")], [], []⟩

/-- Scenario C: `Event { id: UInt64, union { started: Void, stopped: Void } }`,
`discriminantCount = 2`, three fields. -/
def eventFields : List PField :=
  [⟨"id", noDiscriminant, .slot .uint64⟩,
   ⟨"started", 0, .slot .void⟩,
   ⟨"stopped", 1, .slot .void⟩]

def nodeEvent : PNode :=
  ⟨20, "test.capnp:Event", 11, 1, [], [], .struct false 2 0 eventFields⟩

/-- Scenario B: `Shape` as a pure tagged union, `discriminantCount = 2 =
fields.len()`. -/
def shapeFields : List PField :=
  [⟨"circle", 0, .slot (.struct 40)⟩, ⟨"square", 1, .slot (.struct 41)⟩]

def nodeShape : PNode :=
  ⟨30, "test.capnp:Shape", 11, 1, [], [], .struct false 2 0 shapeFields⟩

def cppCtxEx : CppContext :=
  ⟨99, [], [(20, CName.fromString "Event"), (30, CName.fromString "Shape")], [], []⟩

def rustCtxEx : RTranslationContext :=
  ⟨"test.capnp", [],
    [(20, RName.fromString "Event"), (30, RName.fromString "Shape")], [], []⟩

/-- C7: a File node declaring a nested Interface node. -/
def nodeIface : PNode :=
  ⟨2, "test.capnp:Iface", 11, 1, [], [], .interface⟩

def nodeFileC7 : PNode :=
  ⟨1, "test.capnp", 11, 0, [⟨2, "Iface"⟩], [], .file⟩

def rustCtxC7 : RTranslationContext :=
  ⟨"test.capnp", [],
    [(1, RName.fromString "test"), (2, RName.fromString "Iface")], [],
    [(1, nodeFileC7), (2, nodeIface)]⟩

/-- C8: file `a.capnp` with the idiomatic-namespace annotation (id 99) and a
child struct `Point`; file `b.capnp` without the annotation. -/
def nodePoint : PNode :=
  ⟨3, "a.capnp:Point", 8, 1, [], [],
    .struct false 0 0 [⟨"x", noDiscriminant, .slot .int32⟩]⟩

def nodeG : PNode :=
  ⟨1, "a.capnp", 8, 0, [⟨3, "Point"⟩], [⟨99, .text "ns"⟩], .file⟩

def nodeF : PNode :=
  ⟨2, "b.capnp", 8, 0, [], [], .file⟩

def cppCtxC8 : CppContext :=
  ⟨99, [],
    [(1, CName.fromString "a"), (2, CName.fromString "b"),
     (3, CName.fromString "Point")],
    [], [(3, nodePoint)]⟩

/-- C1/C9: a one-module AST with a single recorded reference. -/
def rctxEx : RResolutionContext :=
  ⟨[(7, [RName.fromString "m", RName.fromString "T"])]⟩

def astEx : RustAst :=
  ⟨[.mk (RName.fromString "m")
      [.typeDef (.struct ⟨5, RName.fromString "S",
        ⟨[RName.fromString "m", RName.fromString "S"]⟩,
        ⟨[RName.fromString "f", RName.fromString "S"]⟩,
        [⟨RName.fromString "a", .refId 7⟩]⟩)]]⟩

/-- C5/C6: the sibling names and dependency maps of the witnesses; `depsC6` is
Scenario E's mutual cycle, every dependency list also containing the entity's
own name, exactly as `generate_dependency_list_for_type` produces it. -/
def cnA : CName := CName.fromString "A"

def cnB : CName := CName.fromString "B"

def depsC5 : List (CName × List CName) := [(cnA, [cnB, cnA]), (cnB, [cnB])]

def rankC5 : CName → Nat := fun n => if n = cnB then 0 else 1

def depsC6 : List (CName × List CName) := [(cnA, [cnB, cnA]), (cnB, [cnA, cnB])]

/-- The Rust translation of `nodeEvent` (used by witnesses). -/
def tdEventRust : RTypeDef :=
  .struct ⟨20, RName.fromString "Event",
    ⟨[RName.fromString "Event"]⟩,
    ⟨[RName.fromString "test_capnp", RName.fromString "Event"]⟩,
    [⟨RName.fromString "id", .uint64⟩, ⟨RName.fromString "which", .refId 21⟩]⟩

/-- The Rust module translation of `nodeEvent`, carrying the synthesised
`Which` enum. -/
def mEventRust : RModule :=
  .mk (RName.fromString "Event")
    [.useDecl "crate::getset::\x7bGetters, CopyGetters, MutGetters, Setters\x7d",
     .typeDef (.enum ⟨21, RName.fromString "Which",
       ⟨[RName.fromString "Event", RName.fromString "Which"]⟩,
       ⟨[RName.fromString "test_capnp", RName.fromString "Event"]⟩,
       .whichForPartialUnion,
       [⟨RName.fromString "started", .unit⟩, ⟨RName.fromString "stopped", .unit⟩]⟩)]

/-- The C++ translation of `nodeEvent`: note the `Which` enum-class carries an
enumerant for *all three* fields, `id` included. -/
def dEventCpp : ComplexTypeDef :=
  .cls 20 (CName.fromString "Event")
    [.enumClass ⟨21, CName.fromString "Which",
      [CName.fromString "id", CName.fromString "started", CName.fromString "stopped"]⟩]
    (some ⟨20, [⟨CName.fromString "started", .void⟩, ⟨CName.fromString "stopped", .void⟩]⟩)
    [⟨CName.fromString "id", .ulong⟩, ⟨CName.fromString "which", .refId 21⟩]

/-- The Rust translation of the pure union `nodeShape`: an Enum. -/
def tdShapeRust : RTypeDef :=
  .enum ⟨30, RName.fromString "Shape",
    ⟨[RName.fromString "Shape"]⟩,
    ⟨[RName.fromString "test_capnp", RName.fromString "Shape"]⟩,
    .struct,
    [⟨RName.fromString "circle", .refId 40⟩, ⟨RName.fromString "square", .refId 41⟩]⟩

/-- The C++ translation of the pure union `nodeShape`: a Class with an unnamed
union, not an enum-class. -/
def dShapeCpp : ComplexTypeDef :=
  .cls 30 (CName.fromString "Shape")
    [.enumClass ⟨31, CName.fromString "Which",
      [CName.fromString "circle", CName.fromString "square"]⟩]
    (some ⟨30, [⟨CName.fromString "circle", .refId 40⟩, ⟨CName.fromString "square", .refId 41⟩]⟩)
    [⟨CName.fromString "which", .refId 31⟩]

/-- The Rust module translation of the C7 file node: the nested Interface node
is silently dropped (an empty submodule is all that remains of it). -/
def mFileC7 : RModule :=
  .mk (RName.fromString "test")
    [.useDecl "crate::getset::\x7bGetters, CopyGetters, MutGetters, Setters\x7d",
     .module (.mk (RName.fromString "Iface")
       [.useDecl "crate::getset::\x7bGetters, CopyGetters, MutGetters, Setters\x7d"])]

/-- `astEx` after reference resolution. -/
def astExResolved : RustAst :=
  ⟨[.mk (RName.fromString "m")
      [.typeDef (.struct ⟨5, RName.fromString "S",
        ⟨[RName.fromString "m", RName.fromString "S"]⟩,
        ⟨[RName.fromString "f", RName.fromString "S"]⟩,
        [⟨RName.fromString "a", .refName ⟨[RName.fromString "m", RName.fromString "T"]⟩⟩]⟩)]]⟩

/-! # Theorems

All definitions are above; everything below is proof.
-/

/-! ## Helper lemmas -/

section HelperLemmas

variable {α β γ : Type} [DecidableEq α]

theorem mapME_ok_length {f : α → Except String β} {l : List α} {r : List β}
    (h : mapME f l = .ok r) : r.length = l.length := by
  induction l generalizing r with
  | nil => cases h; rfl
  | cons a t ih =>
    rw [mapME] at h
    split at h
    · cases h
    · split at h
      · cases h
      · cases h
        simp [ih (by assumption)]

theorem mapME_ok_map {f : α → Except String β} {g : β → γ} {h : α → γ}
    {l : List α} {r : List β}
    (hfg : ∀ a b, f a = .ok b → g b = h a)
    (hok : mapME f l = .ok r) : r.map g = l.map h := by
  induction l generalizing r with
  | nil => cases hok; rfl
  | cons a t ih =>
    rw [mapME] at hok
    split at hok
    · cases hok
    · rename_i b hb
      split at hok
      · cases hok
      · rename_i bs hbs
        cases hok
        simp [ih hbs, hfg a b hb]



end HelperLemmas

/-! ## Tokenisation lemmas -/

theorem tokenizeGo_join (cs : List Char) :
    ∀ (cur : List Char) (lastLower : Bool) (acc : List (List Char)),
      (tokenizeGo cs cur lastLower acc).flatten = acc.flatten ++ cur ++ cs := by
  induction cs with
  | nil =>
    intro cur lastLower acc
    rw [tokenizeGo]
    by_cases h : cur.isEmpty
    · simp [h, List.isEmpty_iff.mp h]
    · simp [h]
  | cons c rest ih =>
    intro cur lastLower acc
    rw [tokenizeGo]
    by_cases h : (lastLower && c.isUpper) = true
    · rw [if_pos h, ih]
      simp
    · rw [if_neg h, ih]
      simp

theorem tokenizeGo_nonempty (cs : List Char) :
    ∀ (cur : List Char) (lastLower : Bool) (acc : List (List Char)),
      (∀ t ∈ acc, t ≠ []) → (lastLower = true → cur ≠ []) →
      ∀ t ∈ tokenizeGo cs cur lastLower acc, t ≠ [] := by
  induction cs with
  | nil =>
    intro cur lastLower acc hacc hcur t ht
    rw [tokenizeGo] at ht
    by_cases h : cur.isEmpty
    · simp [h] at ht
      exact hacc t ht
    · simp [h] at ht
      rcases ht with ht | rfl
      · exact hacc t ht
      · simpa using h
  | cons c rest ih =>
    intro cur lastLower acc hacc hcur t ht
    rw [tokenizeGo] at ht
    by_cases h : (lastLower && c.isUpper) = true
    · rw [if_pos h] at ht
      refine ih _ _ _ ?_ (by simp) t ht
      intro t2 ht2
      rcases List.mem_append.mp ht2 with h2 | h2
      · exact hacc t2 h2
      · have : t2 = cur := by simpa using h2
        subst this
        exact hcur (Bool.and_elim_left h)
    · rw [if_neg h] at ht
      exact ih _ _ _ hacc (by simp) t ht


theorem tokenizeGo_chain (cs : List Char) :
    ∀ (cur : List Char) (lastLower : Bool) (acc : List (List Char)),
      (cur = [] → acc = []) →
      (lastLower = true → ∃ c0, cur.getLast? = some c0 ∧ c0.isLower = true) →
      List.Chain' tokenBoundary (acc ++ if cur.isEmpty then [] else [cur]) →
      List.Chain' tokenBoundary (tokenizeGo cs cur lastLower acc) := by
  induction cs with
  | nil =>
    intro cur lastLower acc hemp hlast hchain
    rw [tokenizeGo]
    by_cases h : cur.isEmpty
    · rw [if_pos h]
      simpa [h] using hchain
    · rw [if_neg h]
      simpa [h] using hchain
  | cons c rest ih =>
    intro cur lastLower acc hemp hlast hchain
    rw [tokenizeGo]
    by_cases h : (lastLower && c.isUpper) = true
    · rw [if_pos h]
      obtain ⟨c0, hc0, hc0low⟩ := hlast (Bool.and_elim_left h)
      have hcurne : cur ≠ [] := by
        intro hc; subst hc; simp at hc0
      apply ih
      · intro hc; simp at hc
      · intro hl
        exact ⟨c, by simp, hl⟩
      · have hchain2 : List.Chain' tokenBoundary (acc ++ [cur]) := by
          simpa [List.isEmpty_iff, hcurne] using hchain
        have : List.Chain' tokenBoundary ((acc ++ [cur]) ++ [[c]]) := by
          apply List.Chain'.append hchain2 (by simp)
          intro x hx y hy
          simp at hy hx
          subst hy
          subst hx
          exact ⟨c0, c, hc0, by simp, hc0low, Bool.and_elim_right h⟩
        simpa using this
    · rw [if_neg h]
      apply ih
      · intro hc
        simp at hc
      · intro hl
        exact ⟨c, by simp, hl⟩
      · by_cases hc : cur = []
        · subst hc
          have hacc : acc = [] := hemp rfl
          subst hacc
          simp
        · have hchain2 : List.Chain' tokenBoundary (acc ++ [cur]) := by
            simpa [List.isEmpty_iff, hc] using hchain
          have hparts := List.chain'_append.mp hchain2
          have : List.Chain' tokenBoundary (acc ++ [cur ++ [c]]) := by
            refine List.chain'_append.mpr ⟨hparts.1, by simp, ?_⟩
            intro x hx y hy
            simp at hy
            subst hy
            obtain ⟨c1, c2, hl1, hh2, p1, p2⟩ := hparts.2.2 x hx cur (by simp)
            refine ⟨c1, c2, hl1, ?_, p1, p2⟩
            cases cur with
            | nil => simp at hc
            | cons d t => simpa using hh2
          simpa [List.isEmpty_iff, hc] using this

theorem tokenizeChars_flatten (cs : List Char) : (tokenizeChars cs).flatten = cs := by
  rw [tokenizeChars, tokenizeGo_join]
  rfl

theorem tokenizeChars_nonempty (cs : List Char) : ∀ t ∈ tokenizeChars cs, t ≠ [] := by
  rw [tokenizeChars]
  exact tokenizeGo_nonempty cs [] false [] (by simp) (by simp)

theorem tokenizeChars_chain (cs : List Char) :
    List.Chain' tokenBoundary (tokenizeChars cs) := by
  rw [tokenizeChars]
  exact tokenizeGo_chain cs [] false [] (fun _ => rfl) (by simp) (by simp)

/-! ## Resolution lemmas -/

theorem rtypeResolve_noRefId (ctx : RResolutionContext) (t : RType) :
    ∀ t2, rtypeResolve ctx t = some t2 → rtypeNoRefId t2 = true := by
  induction t <;> intro t2 h <;>
    try (simp only [rtypeResolve] at h; cases h; rfl)
  case list t ih =>
    rw [rtypeResolve] at h
    split at h
    · cases h
    · rename_i t3 h3
      cases h
      rw [rtypeNoRefId]
      exact ih t3 h3
  case refId id =>
    rw [rtypeResolve] at h
    split at h
    · cases h
    · cases h; rfl

theorem rtypeResolve_rel (ctx : RResolutionContext) (t : RType) :
    ∀ t2, rtypeResolve ctx t = some t2 → rtypeRel t t2 = true := by
  induction t <;> intro t2 h <;>
    try (simp only [rtypeResolve] at h; cases h; simp [rtypeRel])
  case list t ih =>
    rw [rtypeResolve] at h
    split at h
    · cases h
    · rename_i t3 h3
      cases h
      rw [rtypeRel]
      exact ih t3 h3
  case refId id =>
    rw [rtypeResolve] at h
    split at h
    · cases h
    · cases h; rfl

theorem mapMO_ok_all {α β : Type} {f : α → Option β} {p : β → Bool}
    (hf : ∀ a b, f a = some b → p b = true) :
    ∀ l r, mapMO f l = some r → r.all p = true := by
  intro l
  induction l with
  | nil => intro r h; cases h; rfl
  | cons a t ih =>
    intro r h
    rw [mapMO] at h
    split at h
    · cases h
    · rename_i b hb
      split at h
      · cases h
      · rename_i bs hbs
        cases h
        simp only [List.all_cons, Bool.and_eq_true]
        exact ⟨hf a b hb, ih bs hbs⟩

theorem mapMO_listRel {α β : Type} {f : α → Option β} {rel : α → β → Bool}
    (hf : ∀ a b, f a = some b → rel a b = true) :
    ∀ l r, mapMO f l = some r → listRel rel l r = true := by
  intro l
  induction l with
  | nil => intro r h; cases h; rfl
  | cons a t ih =>
    intro r h
    rw [mapMO] at h
    split at h
    · cases h
    · rename_i b hb
      split at h
      · cases h
      · rename_i bs hbs
        cases h
        rw [listRel, Bool.and_eq_true]
        exact ⟨hf a b hb, ih bs hbs⟩

theorem rtypedefResolve_noRefId (ctx : RResolutionContext) (d : RTypeDef) :
    ∀ d2, rtypedefResolve ctx d = some d2 → rtypedefNoRefId d2 = true := by
  cases d with
  | enum e =>
    intro d2 h
    rw [rtypedefResolve] at h
    split at h
    · cases h
    · rename_i e2 he2
      cases h
      rw [renumResolve] at he2
      split at he2
      · cases he2
      · rename_i es hes
        cases he2
        rw [rtypedefNoRefId]
        refine mapMO_ok_all ?_ _ _ hes
        intro a b hab
        rw [renumerantResolve] at hab
        split at hab
        · cases hab
        · rename_i t2 ht2
          cases hab
          exact rtypeResolve_noRefId ctx _ _ ht2
  | struct s =>
    intro d2 h
    rw [rtypedefResolve] at h
    split at h
    · cases h
    · rename_i s2 hs2
      cases h
      rw [rstructResolve] at hs2
      split at hs2
      · cases hs2
      · rename_i fs hfs
        cases hs2
        rw [rtypedefNoRefId]
        refine mapMO_ok_all ?_ _ _ hfs
        intro a b hab
        rw [rfieldResolve] at hab
        split at hab
        · cases hab
        · rename_i t2 ht2
          cases hab
          exact rtypeResolve_noRefId ctx _ _ ht2

theorem rtypedefResolve_rel (ctx : RResolutionContext) (d : RTypeDef) :
    ∀ d2, rtypedefResolve ctx d = some d2 → rtypedefRel d d2 = true := by
  cases d with
  | enum e =>
    intro d2 h
    rw [rtypedefResolve] at h
    split at h
    · cases h
    · rename_i e2 he2
      cases h
      rw [renumResolve] at he2
      split at he2
      · cases he2
      · rename_i es hes
        cases he2
        rw [rtypedefRel, renumRel]
        simp only [Bool.and_eq_true, decide_eq_true_eq]
        refine ⟨by simp, ?_⟩
        refine mapMO_listRel ?_ _ _ hes
        intro a b hab
        rw [renumerantResolve] at hab
        split at hab
        · cases hab
        · rename_i t2 ht2
          cases hab
          rw [renumerantRel, Bool.and_eq_true]
          exact ⟨by simp, rtypeResolve_rel ctx _ _ ht2⟩
  | struct s =>
    intro d2 h
    rw [rtypedefResolve] at h
    split at h
    · cases h
    · rename_i s2 hs2
      cases h
      rw [rstructResolve] at hs2
      split at hs2
      · cases hs2
      · rename_i fs hfs
        cases hs2
        rw [rtypedefRel, rstructRel]
        simp only [Bool.and_eq_true, decide_eq_true_eq]
        refine ⟨by simp, ?_⟩
        refine mapMO_listRel ?_ _ _ hfs
        intro a b hab
        rw [rfieldResolve] at hab
        split at hab
        · cases hab
        · rename_i t2 ht2
          cases hab
          rw [rfieldRel, Bool.and_eq_true]
          exact ⟨by simp, rtypeResolve_rel ctx _ _ ht2⟩

mutual

theorem rmoduleResolve_noRefId (ctx : RResolutionContext) (m : RModule) :
    ∀ m2, rmoduleResolve ctx m = some m2 → rmoduleNoRefId m2 = true := by
  match m with
  | .mk name elements =>
    intro m2 h
    rw [rmoduleResolve] at h
    split at h
    · cases h
    · rename_i es hes
      cases h
      rw [rmoduleNoRefId]
      exact relementsResolve_noRefId ctx elements es hes

theorem relementsResolve_noRefId (ctx : RResolutionContext) (es : List RModuleElement) :
    ∀ es2, relementsResolve ctx es = some es2 → relementsNoRefId es2 = true := by
  match es with
  | [] =>
    intro es2 h
    rw [relementsResolve] at h
    cases h
    rfl
  | e :: rest =>
    intro es2 h
    rw [relementsResolve] at h
    split at h
    · cases h
    · rename_i e2 he2
      split at h
      · cases h
      · rename_i es3 hes3
        cases h
        rw [relementsNoRefId, Bool.and_eq_true]
        exact ⟨relementResolve_noRefId ctx e e2 he2, relementsResolve_noRefId ctx rest es3 hes3⟩

theorem relementResolve_noRefId (ctx : RResolutionContext) (e : RModuleElement) :
    ∀ e2, relementResolve ctx e = some e2 → relementNoRefId e2 = true := by
  match e with
  | .useDecl s => intro e2 h; rw [relementResolve] at h; cases h; rfl
  | .crateDecl s => intro e2 h; rw [relementResolve] at h; cases h; rfl
  | .traitDef t => intro e2 h; rw [relementResolve] at h; cases h; rfl
  | .implDecl i => intro e2 h; rw [relementResolve] at h; cases h; rfl
  | .typeDef d =>
    intro e2 h
    rw [relementResolve] at h
    split at h
    · cases h
    · rename_i d2 hd2
      cases h
      rw [relementNoRefId]
      exact rtypedefResolve_noRefId ctx d d2 hd2
  | .module m =>
    intro e2 h
    rw [relementResolve] at h
    split at h
    · cases h
    · rename_i m2 hm2
      cases h
      rw [relementNoRefId]
      exact rmoduleResolve_noRefId ctx m m2 hm2

end

mutual

theorem rmoduleResolve_rel (ctx : RResolutionContext) (m : RModule) :
    ∀ m2, rmoduleResolve ctx m = some m2 → rmoduleRel m m2 = true := by
  match m with
  | .mk name elements =>
    intro m2 h
    rw [rmoduleResolve] at h
    split at h
    · cases h
    · rename_i es hes
      cases h
      rw [rmoduleRel, Bool.and_eq_true]
      exact ⟨by simp, relementsResolve_rel ctx elements es hes⟩

theorem relementsResolve_rel (ctx : RResolutionContext) (es : List RModuleElement) :
    ∀ es2, relementsResolve ctx es = some es2 → relementsRel es es2 = true := by
  match es with
  | [] =>
    intro es2 h
    rw [relementsResolve] at h
    cases h
    rfl
  | e :: rest =>
    intro es2 h
    rw [relementsResolve] at h
    split at h
    · cases h
    · rename_i e2 he2
      split at h
      · cases h
      · rename_i es3 hes3
        cases h
        rw [relementsRel, Bool.and_eq_true]
        exact ⟨relementResolve_rel ctx e e2 he2, relementsResolve_rel ctx rest es3 hes3⟩

theorem relementResolve_rel (ctx : RResolutionContext) (e : RModuleElement) :
    ∀ e2, relementResolve ctx e = some e2 → relementRel e e2 = true := by
  match e with
  | .useDecl s => intro e2 h; rw [relementResolve] at h; cases h; simp [relementRel]
  | .crateDecl s => intro e2 h; rw [relementResolve] at h; cases h; simp [relementRel]
  | .traitDef t => intro e2 h; rw [relementResolve] at h; cases h; simp [relementRel]
  | .implDecl i => intro e2 h; rw [relementResolve] at h; cases h; simp [relementRel]
  | .typeDef d =>
    intro e2 h
    rw [relementResolve] at h
    split at h
    · cases h
    · rename_i d2 hd2
      cases h
      rw [relementRel]
      exact rtypedefResolve_rel ctx d d2 hd2
  | .module m =>
    intro e2 h
    rw [relementResolve] at h
    split at h
    · cases h
    · rename_i m2 hm2
      cases h
      rw [relementRel]
      exact rmoduleResolve_rel ctx m m2 hm2

end

/-! ## Translator lemmas -/

theorem rust_struct_partial_union_fields (ctx : RTranslationContext) (n : PNode)
    (g : Bool) (dc off : Nat) (fields : List PField) (td : RTypeDef)
    (hw : n.which = .struct g dc off fields) (h0 : 0 < dc) (h1 : dc < fields.length)
    (hwf : (fields.filter (fun f => ! decide (f.discriminantValue = noDiscriminant))).length = dc)
    (hok : rtypedefTranslate ctx n = .ok td) :
    ∃ s, td = .struct s ∧ s.fields.length = fields.length - dc + 1 := by
  rw [rtypedefTranslate, hw] at hok
  simp only at hok
  split at hok
  · cases hok
  · rename_i name hname
    rw [if_neg (by omega)] at hok
    rw [if_pos ⟨h0, h1⟩] at hok
    split at hok
    · cases hok
    · rename_i newFields hnew
      cases hok
      refine ⟨_, rfl, ?_⟩
      simp only [List.length_append, List.length_cons, List.length_nil]
      have hlen := mapME_ok_length hnew
      have hcompl := length_filter_add_length_filter_not fields
        (fun f => decide (f.discriminantValue = noDiscriminant))
      omega

theorem rust_module_which_enum (fuel : Nat) (ctx : RTranslationContext) (n : PNode)
    (g : Bool) (dc off : Nat) (fields : List PField) (m : RModule)
    (hw : n.which = .struct g dc off fields) (h0 : 0 < dc) (h1 : dc < fields.length)
    (hwf : (fields.filter (fun f => ! decide (f.discriminantValue = noDiscriminant))).length = dc)
    (hok : rmoduleTranslate fuel ctx n = .ok m) :
    ∃ e, m.elements.getLast? = some (.typeDef (.enum e)) ∧
      e.enumerants.length = dc ∧ e.id = generateIdForWhichEnum n.id := by
  cases fuel with
  | zero => rw [rmoduleTranslate] at hok; cases hok
  | succ fuel =>
    rw [rmoduleTranslate, hw] at hok
    simp only at hok
    split at hok
    · cases hok
    · rename_i moduleName hname
      split at hok
      · cases hok
      · rename_i defs hdefs
        rw [if_pos ⟨h0, h1⟩] at hok
        split at hok
        · cases hok
        · rename_i es hes
          cases hok
          refine ⟨⟨generateIdForWhichEnum n.id, RName.fromString "Which",
            (ctx.cloneWithSubmodule moduleName).generateFullyQualifiedTypeName
              (RName.fromString "Which"),
            ctx.generateCapnpTypeName moduleName, .whichForPartialUnion, es⟩,
            ?_, ?_, rfl⟩
          · simp [RModule.elements]
          · rw [mapME_ok_length hes, hwf]

theorem cpp_partial_union_class (fuel : Nat) (ctx : CppContext) (node : PNode)
    (g : Bool) (dc off : Nat) (fields : List PField) (d : ComplexTypeDef)
    (hw : node.which = .struct g dc off fields) (h0 : 0 < dc)
    (hwf : (fields.filter (fun f => ! decide (f.discriminantValue = noDiscriminant))).length = dc)
    (hok : generateBaseAstTypeForNode fuel ctx node = .ok d) :
    ∃ nm its unionFields cfs w,
      d = .cls node.id nm (its ++ [.enumClass w]) (some ⟨node.id, unionFields⟩) cfs ∧
      cfs.length = fields.length - dc + 1 ∧
      w.enumerants.length = fields.length ∧
      w.id = generateRefidForUnionWhich node.id := by
  cases fuel with
  | zero => rw [generateBaseAstTypeForNode] at hok; cases hok
  | succ fuel =>
    rw [generateBaseAstTypeForNode] at hok
    split at hok
    · cases hok
    · rename_i name hname
      split at hok
      · cases hok
      · rename_i innerTypes hinner
        rw [hw] at hok
        simp only at hok
        rw [if_pos h0] at hok
        split at hok
        · cases hok
        · rename_i classFields0 hcf
          split at hok
          · cases hok
          · rename_i unionFields huf
            split at hok
            · cases hok
            · rename_i whichEnumerants hwe
              cases hok
              refine ⟨name, innerTypes, unionFields, _,
                ⟨generateRefidForUnionWhich node.id, CName.fromString "Which",
                  whichEnumerants⟩, rfl, ?_, ?_, rfl⟩
              · simp only [List.length_append, List.length_cons, List.length_nil]
                have hlen := mapME_ok_length hcf
                have hcompl := length_filter_add_length_filter_not fields
                  (fun f => decide (f.discriminantValue = noDiscriminant))
                omega
              · exact mapME_ok_length hwe

theorem rust_pure_union_enum (ctx : RTranslationContext) (n : PNode)
    (g : Bool) (dc off : Nat) (fields : List PField) (td : RTypeDef)
    (hw : n.which = .struct g dc off fields) (hdc : dc = fields.length)
    (hok : rtypedefTranslate ctx n = .ok td) :
    ∃ e, td = .enum e ∧ e.enumerants.length = fields.length ∧
      e.enumerants.map (fun x => x.name) =
        fields.map (fun f => RName.fromString f.name) := by
  rw [rtypedefTranslate, hw] at hok
  simp only at hok
  split at hok
  · cases hok
  · rename_i name hname
    rw [if_pos hdc] at hok
    split at hok
    · cases hok
    · rename_i es hes
      cases hok
      refine ⟨_, rfl, mapME_ok_length hes, ?_⟩
      refine mapME_ok_map ?_ hes
      intro f b hb
      rw [renumerantOfField] at hb
      split at hb
      · cases hb
      · split at hb
        · cases hb
        · cases hb; rfl

theorem cpp_pure_union_class (fuel : Nat) (ctx : CppContext) (node : PNode)
    (g : Bool) (dc off : Nat) (fields : List PField) (d : ComplexTypeDef)
    (hw : node.which = .struct g dc off fields) (h0 : 0 < dc)
    (hok : generateBaseAstTypeForNode fuel ctx node = .ok d) :
    ∃ nm its u cfs, d = .cls node.id nm its (some u) cfs := by
  cases fuel with
  | zero => rw [generateBaseAstTypeForNode] at hok; cases hok
  | succ fuel =>
    rw [generateBaseAstTypeForNode] at hok
    split at hok
    · cases hok
    · rename_i name hname
      split at hok
      · cases hok
      · rename_i innerTypes hinner
        rw [hw] at hok
        simp only at hok
        rw [if_pos h0] at hok
        split at hok
        · cases hok
        · split at hok
          · cases hok
          · split at hok
            · cases hok
            · cases hok
              exact ⟨_, _, _, _, rfl⟩

theorem cppType_unsupported_error :
    ∀ t, ptypeHasUnsupported t = true → ∃ e, translateParserTypeToCppType t = .error e := by
  intro t
  induction t <;> intro h <;> try (simp [ptypeHasUnsupported] at h)
  · exact ⟨_, rfl⟩
  · rename_i t ih
    obtain ⟨e, he⟩ := ih h
    rw [translateParserTypeToCppType, he]
    exact ⟨e, rfl⟩
  · exact ⟨_, rfl⟩
  · exact ⟨_, rfl⟩

theorem rustType_unsupported_error (ctx : RTranslationContext) :
    ∀ t, ptypeHasUnsupported t = true → ∃ e, rtypeTranslate ctx t = .error e := by
  intro t
  induction t <;> intro h <;> try (simp [ptypeHasUnsupported] at h)
  · exact ⟨_, rfl⟩
  · rename_i t ih
    obtain ⟨e, he⟩ := ih h
    rw [rtypeTranslate, he]
    exact ⟨e, rfl⟩
  · exact ⟨_, rfl⟩
  · exact ⟨_, rfl⟩

theorem cpp_gen_interface_const_error (fuel : Nat) (ctx : CppContext) (node : PNode)
    (hw : node.which = .interface ∨ node.which = .const) :
    ∃ e, generateBaseAstTypeForNode fuel ctx node = .error e := by
  cases fuel with
  | zero => exact ⟨_, by rw [generateBaseAstTypeForNode]⟩
  | succ fuel =>
    rw [generateBaseAstTypeForNode]
    cases halookup : alookup ctx.names node.id with
    | none => exact ⟨_, rfl⟩
    | some name =>
      cases hinner : generateInnerTypes fuel ctx (cppChildIds ctx node.id) with
      | error e => exact ⟨e, rfl⟩
      | ok innerTypes =>
        rcases hw with hw | hw <;> rw [hw] <;> exact ⟨_, rfl⟩

/-! ## File-skip lemmas (C8) -/

theorem generateFileNode_skip (fuel : Nat) (ctx : CppContext) (nodes : List PNode)
    (f : PNode) (root : CNamespace)
    (hann : f.annots.filter (fun a => decide (a.id = ctx.idiomaticNamespaceAnnotId)) = []) :
    generateBaseAstForFileNode fuel ctx nodes f root = .ok root := by
  rw [generateBaseAstForFileNode, hann]
  rfl

theorem foldME_congr {α β : Type} (f1 f2 : β → α → Except String β) (l : List α)
    (h : ∀ b a, a ∈ l → f1 b a = f2 b a) :
    ∀ b, foldME f1 b l = foldME f2 b l := by
  induction l with
  | nil => intro b; rfl
  | cons a t ih =>
    intro b
    rw [foldME, foldME, h b a (by simp)]
    split
    · rfl
    · exact ih (fun b a ha => h b a (by simp [ha])) _

theorem foldME_append {α β : Type} (f : β → α → Except String β) (l1 l2 : List α) :
    ∀ b, foldME f b (l1 ++ l2) =
      match foldME f b l1 with
      | .error e => .error e
      | .ok b2 => foldME f b2 l2 := by
  induction l1 with
  | nil => intro b; rfl
  | cons a t ih =>
    intro b
    rw [List.cons_append, foldME, foldME]
    split
    · rfl
    · exact ih _

theorem filter_middle_eq {α : Type} (pre post : List α) (f : α) (p : α → Bool)
    (hf : p f = false) :
    (pre ++ f :: post).filter p = (pre ++ post).filter p := by
  rw [List.filter_append, List.filter_append, List.filter_cons_of_neg (by simp [hf])]

theorem generateFileNode_nodes_invariant (fuel : Nat) (ctx : CppContext)
    (pre post : List PNode) (f g : PNode) (root : CNamespace)
    (hscope : f.scopeId ≠ g.id) :
    generateBaseAstForFileNode fuel ctx (pre ++ f :: post) g root =
      generateBaseAstForFileNode fuel ctx (pre ++ post) g root := by
  rw [generateBaseAstForFileNode, generateBaseAstForFileNode]
  rw [filter_middle_eq pre post f
    (fun c => decide (c.scopeId = g.id) && ! decide (c.which = PNodeWhich.annot))
    (by simp [hscope])]

theorem generateBaseAst_skip_file (fuel : Nat) (ctx : CppContext)
    (pre post : List PNode) (f : PNode)
    (hfile : f.which = .file)
    (hann : f.annots.filter (fun a => decide (a.id = ctx.idiomaticNamespaceAnnotId)) = [])
    (hscope : ∀ g ∈ pre ++ post, g.which = .file → f.scopeId ≠ g.id) :
    generateBaseAst fuel ctx (pre ++ f :: post) = generateBaseAst fuel ctx (pre ++ post) := by
  rw [generateBaseAst, generateBaseAst]
  rw [List.filter_append, List.filter_append,
    List.filter_cons_of_pos (by simp [hfile])]
  have hcong : ∀ (l : List PNode), (∀ g ∈ l, g ∈ pre ++ post ∧ g.which = .file) → ∀ b,
      foldME (fun root n => generateBaseAstForFileNode fuel ctx (pre ++ f :: post) n root) b l =
      foldME (fun root n => generateBaseAstForFileNode fuel ctx (pre ++ post) n root) b l := by
    intro l hl b
    refine foldME_congr _ _ l ?_ b
    intro b2 g hg
    exact generateFileNode_nodes_invariant fuel ctx pre post f g b2
      (hscope g (hl g hg).1 (hl g hg).2)
  have hpremem : ∀ g ∈ pre.filter (fun n => decide (n.which = PNodeWhich.file)),
      g ∈ pre ++ post ∧ g.which = .file := by
    intro g hg
    exact ⟨by simp [List.mem_filter.mp hg |>.1], by simpa using (List.mem_filter.mp hg).2⟩
  have hpostmem : ∀ g ∈ post.filter (fun n => decide (n.which = PNodeWhich.file)),
      g ∈ pre ++ post ∧ g.which = .file := by
    intro g hg
    exact ⟨by simp [List.mem_filter.mp hg |>.1], by simpa using (List.mem_filter.mp hg).2⟩
  rw [foldME_append, foldME_append]
  rw [hcong _ hpremem]
  split
  · rfl
  · rename_i b2 hb2
    rw [foldME, generateFileNode_skip fuel ctx (pre ++ f :: post) f b2 hann]
    exact hcong _ hpostmem b2

theorem join_map_mk (l : List (List Char)) :
    String.join (l.map (fun cs => String.mk cs)) = String.mk l.flatten := by
  have h : ∀ (l : List (List Char)) (acc : List Char),
      List.foldl (fun r s => r ++ s) (String.mk acc) (l.map (fun cs => String.mk cs)) =
        String.mk (acc ++ l.flatten) := by
    intro l
    induction l with
    | nil => intro acc; simp
    | cons cs t ih =>
      intro acc
      rw [List.map_cons, List.foldl_cons]
      have hmk : (String.mk acc ++ String.mk cs) = String.mk (acc ++ cs) := rfl
      rw [hmk, ih]
      simp
  have h2 := h l []
  simpa [String.join] using h2

theorem mk_ne_empty (cs : List Char) (h : cs ≠ []) : String.mk cs ≠ "" := by
  intro hc
  apply h
  have h2 := congrArg String.data hc
  simpa using h2

/-! # Claim theorems -/

/-- Claim C1 (amended): in the Rust backend's reference resolution, every
`RefId` recorded in the resolution context is rewritten to the `RefName` built
from the recorded fully qualified name (recursively under `List`), an
unrecorded `RefId` is a fatal failure (`resolve` yields no result — the
`unwrap` panic), and a resolved AST contains no `RefId` anywhere.  In the C++
backend, the codegen-time name lookup `resolve_full_name` itself is not fatal
on an unrecorded id: it emits the placeholder string `ref<id>` (see the
counterexample) — other codegen paths reaching a dangling id (the dependency
walker's and `is_enum_class`'s `unwrap`s) do panic, so only this lookup masks
rather than fails. -/
theorem claim_C1_reference_resolution :
    (∀ (ctx : RResolutionContext) (id : Nat) (ns : List RName),
        alookup ctx.types id = some ns →
        rtypeResolve ctx (.refId id) = some (.refName ⟨ns⟩)) ∧
    (∀ (ctx : RResolutionContext) (id : Nat),
        alookup ctx.types id = none → rtypeResolve ctx (.refId id) = none) ∧
    (∀ (ctx : RResolutionContext) (t : RType),
        rtypeResolve ctx (.list t) =
          match rtypeResolve ctx t with
          | none => none
          | some t2 => some (.list t2)) ∧
    (∀ (ctx : RResolutionContext) (t t2 : RType),
        rtypeResolve ctx t = some t2 → rtypeNoRefId t2 = true) ∧
    (∀ (ctx : RResolutionContext) (a a2 : RustAst),
        rustAstResolve ctx a = some a2 → rustAstNoRefId a2 = true) := by
  refine ⟨?_, ?_, ?_, ?_, ?_⟩
  · intro ctx id ns h
    rw [rtypeResolve, h]
  · intro ctx id h
    rw [rtypeResolve, h]
  · intro ctx t
    rfl
  · exact fun ctx t t2 h => rtypeResolve_noRefId ctx t t2 h
  · intro ctx a a2 h
    rw [rustAstResolve] at h
    split at h
    · cases h
    · rename_i ds hds
      cases h
      rw [rustAstNoRefId]
      exact mapMO_ok_all (fun m m2 hm => rmoduleResolve_noRefId ctx m m2 hm) _ _ hds

/-- Witness for C1 on a concrete context and AST. -/
theorem claim_C1_witness :
    rtypeResolve rctxEx (.refId 7) =
      some (.refName ⟨[RName.fromString "m", RName.fromString "T"]⟩) ∧
    rtypeResolve rctxEx (.refId 8) = none ∧
    rustAstNoRefId astExResolved = true :=
  ⟨claim_C1_reference_resolution.1 rctxEx 7 _ rfl,
   claim_C1_reference_resolution.2.1 rctxEx 8 rfl,
   claim_C1_reference_resolution.2.2.2.2 rctxEx astEx astExResolved rfl⟩

/-- Counterexample for C1 as stated: the C++ backend's `resolve_full_name` on
an id recorded nowhere yields the placeholder string `ref<42>` instead of
failing — at this lookup the dangling reference is masked by placeholder
output, contradicting the claim's "rather than being masked by placeholder
output". -/
theorem claim_C1_counterexample : resolveFullName ⟨[]⟩ 42 = "ref<42>" := rfl

/-- Claim C2 (amended): for `0 < discriminantCount < fields.len()` (with
`discriminantCount` discriminated fields, as in every well-formed schema), the
translated Struct has `fields.len() - discriminantCount + 1` fields in both
backends (the non-discriminated fields plus the synthetic `which` field), and
the Rust backend's companion `Which` enum has exactly `discriminantCount`
enumerants; the C++ backend's companion `Which` enum-class instead has
`fields.len()` enumerants — one per field, the non-discriminated ones
included (see the counterexample). -/
theorem claim_C2_union_split_counts :
    (∀ (ctx : RTranslationContext) (n : PNode) (g : Bool) (dc off : Nat)
        (fields : List PField) (td : RTypeDef),
        n.which = .struct g dc off fields → 0 < dc → dc < fields.length →
        (fields.filter (fun f => ! decide (f.discriminantValue = noDiscriminant))).length = dc →
        rtypedefTranslate ctx n = .ok td →
        ∃ s, td = .struct s ∧ s.fields.length = fields.length - dc + 1) ∧
    (∀ (fuel : Nat) (ctx : RTranslationContext) (n : PNode) (g : Bool) (dc off : Nat)
        (fields : List PField) (m : RModule),
        n.which = .struct g dc off fields → 0 < dc → dc < fields.length →
        (fields.filter (fun f => ! decide (f.discriminantValue = noDiscriminant))).length = dc →
        rmoduleTranslate fuel ctx n = .ok m →
        ∃ e, m.elements.getLast? = some (.typeDef (.enum e)) ∧
          e.enumerants.length = dc ∧ e.id = generateIdForWhichEnum n.id) ∧
    (∀ (fuel : Nat) (ctx : CppContext) (node : PNode) (g : Bool) (dc off : Nat)
        (fields : List PField) (d : ComplexTypeDef),
        node.which = .struct g dc off fields → 0 < dc →
        (fields.filter (fun f => ! decide (f.discriminantValue = noDiscriminant))).length = dc →
        generateBaseAstTypeForNode fuel ctx node = .ok d →
        ∃ nm its unionFields cfs w,
          d = .cls node.id nm (its ++ [.enumClass w]) (some ⟨node.id, unionFields⟩) cfs ∧
          cfs.length = fields.length - dc + 1 ∧
          w.enumerants.length = fields.length ∧
          w.id = generateRefidForUnionWhich node.id) :=
  ⟨rust_struct_partial_union_fields, rust_module_which_enum, cpp_partial_union_class⟩

/-- Witness for C2 on Scenario C's `Event` node (`discriminantCount = 2`,
three fields). -/
theorem claim_C2_witness :
    (∃ s, tdEventRust = RTypeDef.struct s ∧ s.fields.length = eventFields.length - 2 + 1) ∧
    (∃ e, mEventRust.elements.getLast? = some (.typeDef (.enum e)) ∧
      e.enumerants.length = 2 ∧ e.id = generateIdForWhichEnum nodeEvent.id) ∧
    (∃ nm its unionFields cfs w,
      dEventCpp = .cls nodeEvent.id nm (its ++ [.enumClass w])
        (some ⟨nodeEvent.id, unionFields⟩) cfs ∧
      cfs.length = eventFields.length - 2 + 1 ∧
      w.enumerants.length = eventFields.length ∧
      w.id = generateRefidForUnionWhich nodeEvent.id) :=
  ⟨claim_C2_union_split_counts.1 rustCtxEx nodeEvent false 2 0 eventFields tdEventRust rfl
      (by decide) (by decide) (by decide) rfl,
   claim_C2_union_split_counts.2.1 1 rustCtxEx nodeEvent false 2 0 eventFields mEventRust rfl
      (by decide) (by decide) (by decide)
      (by simp [rmoduleTranslate, rtranslateNested, rustCtxEx, nodeEvent, eventFields, alookup,
            RTranslationContext.cloneWithSubmodule,
            RTranslationContext.generateFullyQualifiedTypeName,
            RTranslationContext.generateCapnpTypeName, mapME, renumerantOfField, rtypeTranslate,
            noDiscriminant, generateIdForWhichEnum, mEventRust]
          rfl),
   claim_C2_union_split_counts.2.2 1 cppCtxEx nodeEvent false 2 0 eventFields dEventCpp rfl
      (by decide) (by decide)
      (by simp [generateBaseAstTypeForNode, generateInnerTypes, cppCtxEx, nodeEvent, eventFields,
            alookup, cppChildIds, mapME, translateParserFieldToCppField,
            translateParserFieldToEnumerant, translateParserTypeToCppType, noDiscriminant,
            generateRefidForUnionWhich, dEventCpp])⟩

/-- Counterexample for C2 as stated: on `Event` (`discriminantCount = 2`,
three fields) the C++ translator synthesises a `Which` enum-class with three
enumerants (`id`, `started`, `stopped`) — not `discriminantCount = 2`. -/
theorem claim_C2_counterexample :
    generateBaseAstTypeForNode 1 cppCtxEx nodeEvent = .ok dEventCpp ∧
    [CName.fromString "id", CName.fromString "started", CName.fromString "stopped"].length ≠ 2 :=
  ⟨by simp [generateBaseAstTypeForNode, generateInnerTypes, cppCtxEx, nodeEvent, eventFields,
      alookup, cppChildIds, mapME, translateParserFieldToCppField,
      translateParserFieldToEnumerant, translateParserTypeToCppType, noDiscriminant,
      generateRefidForUnionWhich, dEventCpp],
   by decide⟩

/-- Claim C3 (amended): the Rust backend translates a Struct node with
`fields.len() == discriminantCount` to an Enum with exactly `fields.len()`
enumerants, each named after the corresponding field in order; the C++
backend, however, translates every Struct with `discriminantCount > 0` — pure
unions included — to a Class with an unnamed union payload, not an Enum
(see the counterexample). -/
theorem claim_C3_pure_union :
    (∀ (ctx : RTranslationContext) (n : PNode) (g : Bool) (dc off : Nat)
        (fields : List PField) (td : RTypeDef),
        n.which = .struct g dc off fields → dc = fields.length →
        rtypedefTranslate ctx n = .ok td →
        ∃ e, td = .enum e ∧ e.enumerants.length = fields.length ∧
          e.enumerants.map (fun x => x.name) =
            fields.map (fun f => RName.fromString f.name)) ∧
    (∀ (fuel : Nat) (ctx : CppContext) (node : PNode) (g : Bool) (dc off : Nat)
        (fields : List PField) (d : ComplexTypeDef),
        node.which = .struct g dc off fields → 0 < dc →
        generateBaseAstTypeForNode fuel ctx node = .ok d →
        ∃ nm its u cfs, d = .cls node.id nm its (some u) cfs) :=
  ⟨rust_pure_union_enum, cpp_pure_union_class⟩

/-- Witness for C3 on Scenario B's pure union `Shape`. -/
theorem claim_C3_witness :
    (∃ e, tdShapeRust = RTypeDef.enum e ∧ e.enumerants.length = shapeFields.length ∧
      e.enumerants.map (fun x => x.name) =
        shapeFields.map (fun f => RName.fromString f.name)) ∧
    (∃ nm its u cfs, dShapeCpp = .cls nodeShape.id nm its (some u) cfs) :=
  ⟨claim_C3_pure_union.1 rustCtxEx nodeShape false 2 0 shapeFields tdShapeRust rfl rfl rfl,
   claim_C3_pure_union.2 1 cppCtxEx nodeShape false 2 0 shapeFields dShapeCpp rfl (by decide)
      (by simp [generateBaseAstTypeForNode, generateInnerTypes, cppCtxEx, nodeShape, shapeFields,
            alookup, cppChildIds, mapME, translateParserFieldToCppField,
            translateParserFieldToEnumerant, translateParserTypeToCppType, noDiscriminant,
            generateRefidForUnionWhich, dShapeCpp])⟩

/-- Counterexample for C3 as stated: the C++ translation of the pure union
`Shape` (`fields.len() = discriminantCount = 2`) is a Class carrying an
unnamed-union payload — not an Enum. -/
theorem claim_C3_counterexample :
    generateBaseAstTypeForNode 1 cppCtxEx nodeShape = .ok dShapeCpp ∧
    (match dShapeCpp with
     | .cls _ _ _ (some _) _ => True
     | _ => False) :=
  ⟨by simp [generateBaseAstTypeForNode, generateInnerTypes, cppCtxEx, nodeShape, shapeFields,
      alookup, cppChildIds, mapME, translateParserFieldToCppField,
      translateParserFieldToEnumerant, translateParserTypeToCppType, noDiscriminant,
      generateRefidForUnionWhich, dShapeCpp],
   trivial⟩

/-- Claim C4: the synthesised companion-id generators of both backends are the
arithmetic offset `id + 1`, which collides with the real node id space: in the
concrete graph `{nodeC4a (id 10, partial union), nodeC4b (id 11)}` the Which
enum synthesised for node 10 receives id 11 — the id of a distinct real node —
and the translated `which` field indeed refers to `RefId 11`. -/
theorem claim_C4_synthetic_id_collision :
    generateIdForWhichEnum nodeC4a.id = nodeC4b.id ∧
    generateRefidForUnionWhich nodeC4a.id = nodeC4b.id ∧
    nodeC4a.id ≠ nodeC4b.id ∧
    rtypedefTranslate ctxC4 nodeC4a = .ok (.struct ⟨10, RName.fromString "Thing",
      ⟨[RName.fromString "Thing"]⟩,
      ⟨[RName.fromString "test_capnp", RName.fromString "Thing"]⟩,
      [⟨RName.fromString "a", .int32⟩, ⟨RName.fromString "which", .refId 11⟩]⟩) :=
  ⟨rfl, rfl, by decide, rfl⟩

/-- Claim C5: if the computed dependency relation of a sibling group is
acyclic apart from self-edges (witnessed by a rank function descending along
non-self dependencies), then every sibling `D` that an entity `E` of the group
depends on (`D ≠ E`) appears strictly before `E` in the orderer's output. -/
theorem claim_C5_ordering_correctness {α : Type} [DecidableEq α]
    (deps : List (α × List α)) (names : List α) (rank : α → Nat)
    (hacyc : ∀ p ∈ deps, ∀ d ∈ p.2, d ≠ p.1 → rank d < rank p.1)
    (E : α) (hE : E ∈ names) (D : α) (hD : D ∈ depsOfName deps E) (hne : D ≠ E) :
    appearsBefore (orderNames deps names) D E :=
  orderNames_orderedByDeps deps rank hacyc names E (orderNames_mem deps names E hE) D hD hne

/-- Witness for C5: Scenario D — `A` depends on `B` (and on itself, as the
computed dependency lists always do); `B` is placed strictly before `A`. -/
theorem claim_C5_witness : appearsBefore (orderNames depsC5 [cnA, cnB]) cnB cnA :=
  claim_C5_ordering_correctness depsC5 [cnA, cnB] rankC5 (by decide) cnA (by decide)
    cnB (by decide) (by decide)

/-- Claim C6: for every dependency map — cyclic maps and self-dependencies
included — the orderer is a total function (it terminates; `insertSorted`'s
queue strictly grows on the finitely many map keys), it never fails, and every
sibling of the group appears exactly once in the output. -/
theorem claim_C6_orderer_total {α : Type} [DecidableEq α]
    (deps : List (α × List α)) (names : List α) (n : α) (hn : n ∈ names) :
    (orderNames deps names).count n = 1 :=
  List.count_eq_one_of_mem (orderNames_nodup deps names) (orderNames_mem deps names n hn)

/-- Witness for C6: Scenario E — `A` and `B` mutually depend on each other and
on themselves; the orderer still yields each exactly once. -/
theorem claim_C6_witness :
    (orderNames depsC6 [cnA, cnB]).count cnA = 1 ∧
    (orderNames depsC6 [cnA, cnB]).count cnB = 1 :=
  ⟨claim_C6_orderer_total depsC6 [cnA, cnB] cnA (by decide),
   claim_C6_orderer_total depsC6 [cnA, cnB] cnB (by decide)⟩

/-- Claim C7 (amended): the unsupported type variants (`Data`, `AnyPointer`,
`Interface` types — also nested under `List`) and Group-typed fields abort
translation in both backends wherever they occur, and the C++ backend aborts
on Interface and Const nodes; the Rust backend, however, silently skips
Interface and Const nodes — its module translation filters them out without
failing (see the counterexample). -/
theorem claim_C7_unsupported_constructs :
    (∀ t, ptypeHasUnsupported t = true →
        ∃ e, translateParserTypeToCppType t = .error e) ∧
    (∀ (ctx : RTranslationContext) (t : PType), ptypeHasUnsupported t = true →
        ∃ e, rtypeTranslate ctx t = .error e) ∧
    (∀ (f : PField) (gid : Nat), f.which = .group gid →
        (∃ e, translateParserFieldToCppField f = .error e) ∧
        (∃ e, translateParserFieldToEnumerant f = .error e) ∧
        (∀ (ctx : RTranslationContext),
          (∃ e, rfieldTranslate ctx f = .error e) ∧
          (∃ e, renumerantOfField ctx f = .error e))) ∧
    (∀ (fuel : Nat) (ctx : CppContext) (node : PNode),
        node.which = .interface ∨ node.which = .const →
        ∃ e, generateBaseAstTypeForNode fuel ctx node = .error e) := by
  refine ⟨cppType_unsupported_error, rustType_unsupported_error, ?_,
    cpp_gen_interface_const_error⟩
  intro f gid hw
  refine ⟨⟨"Groups are not supported.", ?_⟩, ⟨"Groups are not supported.", ?_⟩,
    fun ctx => ⟨⟨"Groups are not supported.", ?_⟩, ⟨"Groups are not supported.", ?_⟩⟩⟩
  · rw [translateParserFieldToCppField, hw]
  · rw [translateParserFieldToEnumerant, hw]
  · rw [rfieldTranslate, hw]
  · rw [renumerantOfField, hw]

/-- Witness for C7 at concrete unsupported constructs. -/
theorem claim_C7_witness :
    (∃ e, translateParserTypeToCppType PType.data = .error e) ∧
    (∃ e, rtypeTranslate rustCtxEx (PType.list PType.anyPointer) = .error e) ∧
    (∃ e, generateBaseAstTypeForNode 1 cppCtxEx nodeIface = .error e) :=
  ⟨claim_C7_unsupported_constructs.1 PType.data rfl,
   claim_C7_unsupported_constructs.2.1 rustCtxEx (PType.list PType.anyPointer) rfl,
   claim_C7_unsupported_constructs.2.2.2 1 cppCtxEx nodeIface (Or.inl rfl)⟩

/-- Counterexample for C7 as stated: a schema containing an Interface node
translates successfully in the Rust backend — `Module::translate` of the file
node containing nested Interface node 2 returns a module (no fatal error),
with the Interface silently dropped (only an empty submodule remains). -/
theorem claim_C7_counterexample :
    rmoduleTranslate 2 rustCtxC7 nodeFileC7 = .ok mFileC7 ∧
    nodeIface.which = PNodeWhich.interface ∧
    (2, nodeIface) ∈ rustCtxC7.nodes :=
  ⟨by simp [rmoduleTranslate, rtranslateNested, rustCtxC7, nodeFileC7, nodeIface, alookup,
      RTranslationContext.cloneWithSubmodule, rtypedefTranslate, mFileC7],
   rfl, by decide⟩

/-- Claim C8: a File node without the recognised idiomatic-namespace
annotation is skipped — translating it leaves the output untouched and does
not fail — and (provided no File node is recorded as a child of another File
node, as the data model's "files are roots" guarantees) the whole translation
equals the translation of the graph with the annotation-less File node
removed. -/
theorem claim_C8_missing_annotation_skip :
    ∀ (fuel : Nat) (ctx : CppContext) (pre post : List PNode) (f : PNode),
      f.which = .file →
      f.annots.filter (fun a => decide (a.id = ctx.idiomaticNamespaceAnnotId)) = [] →
      (∀ g ∈ pre ++ post, g.which = .file → f.scopeId ≠ g.id) →
      (∀ root, generateBaseAstForFileNode fuel ctx (pre ++ f :: post) f root = .ok root) ∧
      generateBaseAst fuel ctx (pre ++ f :: post) = generateBaseAst fuel ctx (pre ++ post) := by
  intro fuel ctx pre post f hfile hann hscope
  exact ⟨fun root => generateFileNode_skip fuel ctx _ f root hann,
    generateBaseAst_skip_file fuel ctx pre post f hfile hann hscope⟩

/-- Witness for C8: `b.capnp` (no annotation) is skipped and the two-file
graph translates exactly as the one-file graph. -/
theorem claim_C8_witness :
    (generateBaseAstForFileNode 2 cppCtxC8 [nodeG, nodePoint, nodeF] nodeF CNamespace.empty =
      .ok CNamespace.empty) ∧
    generateBaseAst 2 cppCtxC8 [nodeG, nodePoint, nodeF] =
      generateBaseAst 2 cppCtxC8 [nodeG, nodePoint] := by
  have h := claim_C8_missing_annotation_skip 2 cppCtxC8 [nodeG, nodePoint] [] nodeF rfl
    (by decide) (by decide)
  exact ⟨h.1 CNamespace.empty, h.2⟩

/-- Claim C9: the Rust backend's resolve pass is a structural copy outside
references — module names and nesting, TypeDef ids, names and qualified
names, field and enumerant names and order, and all non-reference types are
preserved; the only rewrites are `RefId` leaves (also under `List`) becoming
`RefName`, as captured by the `rustAstRel` relation. -/
theorem claim_C9_resolve_structural_copy :
    ∀ (ctx : RResolutionContext) (a a2 : RustAst),
      rustAstResolve ctx a = some a2 → rustAstRel a a2 = true := by
  intro ctx a a2 h
  rw [rustAstResolve] at h
  split at h
  · cases h
  · rename_i ds hds
    cases h
    rw [rustAstRel]
    exact mapMO_listRel (fun m m2 hm => rmoduleResolve_rel ctx m m2 hm) _ _ hds

/-- Witness for C9 on the concrete AST `astEx`. -/
theorem claim_C9_witness : rustAstRel astEx astExResolved = true :=
  claim_C9_resolve_structural_copy rctxEx astEx astExResolved rfl

/-- Claim C10: `Name::from` concatenation — joining the produced tokens in
order yields exactly the input with every `/` replaced by `_` and every `+`
replaced by `_plus` (the sanitised input); no token is empty; and the
tokenisation splits only at lowercase-to-uppercase boundaries (every adjacent
token pair ends lowercase / begins uppercase). -/
theorem claim_C10_name_tokenisation :
    ∀ s : String,
      String.join ((RName.fromString s).tokens) = String.mk (sanitizeChars s.data) ∧
      String.join ((CName.fromString s).tokens) = String.mk (sanitizeChars s.data) ∧
      (∀ t ∈ (RName.fromString s).tokens, t ≠ "") ∧
      (∀ t ∈ (CName.fromString s).tokens, t ≠ "") ∧
      List.Chain' tokenBoundary (tokenizeChars (sanitizeChars s.data)) := by
  intro s
  refine ⟨?_, ?_, ?_, ?_, tokenizeChars_chain _⟩
  · show String.join ((tokenizeChars (sanitizeChars s.data)).map (fun cs => String.mk cs)) = _
    rw [join_map_mk, tokenizeChars_flatten]
  · show String.join ((tokenizeChars (sanitizeChars s.data)).map (fun cs => String.mk cs)) = _
    rw [join_map_mk, tokenizeChars_flatten]
  · intro t ht
    have ht2 : t ∈ (tokenizeChars (sanitizeChars s.data)).map (fun cs => String.mk cs) := ht
    obtain ⟨cs, hcs, rfl⟩ := List.mem_map.mp ht2
    exact mk_ne_empty cs (tokenizeChars_nonempty _ cs hcs)
  · intro t ht
    have ht2 : t ∈ (tokenizeChars (sanitizeChars s.data)).map (fun cs => String.mk cs) := ht
    obtain ⟨cs, hcs, rfl⟩ := List.mem_map.mp ht2
    exact mk_ne_empty cs (tokenizeChars_nonempty _ cs hcs)

/-- Witness for C10 at `"helloWorld"`. -/
theorem claim_C10_witness :
    String.join ((RName.fromString "helloWorld").tokens) =
      String.mk (sanitizeChars "helloWorld".data) ∧
    "hello" ∈ (RName.fromString "helloWorld").tokens ∧ "hello" ≠ "" :=
  ⟨(claim_C10_name_tokenisation "helloWorld").1,
   by decide,
   (claim_C10_name_tokenisation "helloWorld").2.2.1 "hello" (by decide)⟩
